import Mathlib

/-!
Shallow embedding of `classes/simulator_7.py` from the SimPyManufacturing
repository: the data model, the three constraint checks, the discrete-event
engine (`activity_processing`, `activity_generator`, `simulate`) and the
post-run metrics, together with theorems settling the specification claims.

Times are embedded as `Int` (the virtual clock), Python's `float("inf")`
sentinel as the dedicated inductive `PyTime.inf`, and fallible Python code
(`max` of an empty sequence raises `ValueError`) as `Except String`.
-/

namespace Sim7

/-- The failure codes produced by the constraint checks (`FailureCode` enum,
imported by `simulator_7.py` from `classes.classes`). -/
inductive FailureCode
  | AVAILABILITY
  | PRECEDENCE
  | MIN_LAG
  | MAX_LAG
  | COMPATIBILITY
deriving DecidableEq, Repr

/-- The log actions (`Action` enum imported from `classes.classes`). -/
inductive Action
  | START
  | END
deriving DecidableEq, Repr

/-- A resource instance: the `Resource = namedtuple('Machine', 'resource_group, id')`
created in `Simulator.simulate`. -/
structure Resource where
  resource_group : String
  id : Nat
deriving DecidableEq, Repr

/-- One log record appended by `SimulatorLogger.log_activity`. -/
structure LogEntry where
  product_id : Nat
  activity_id : Nat
  product_index : Nat
  action : Action
  timestamp : Int
deriving DecidableEq, Repr

/-- The `SimulatorLogger` state used by `simulator_7.py`: the append-only entry
list, the active-process set, and the mutable `failure_code` field that
`_precedence_constraint_check` and `activity_processing` write to. -/
structure SimulatorLogger where
  entries : List LogEntry
  active_processes : List (Nat × Nat)
  failure_code : Option FailureCode
deriving DecidableEq, Repr

/-- A temporal relation between a predecessor and a successor activity; Python's
`temp_rel.max_lag` may be undefined (`None`), embedded as `Option Int`. -/
structure TemporalRelation where
  min_lag : Int
  max_lag : Option Int
deriving DecidableEq, Repr

/-- One mutual-exclusion constraint of an activity: the `(constraint.product_id,
constraint.activity_id)` pair checked against the active-process set. -/
structure ActivityConstraint where
  product_id : Nat
  activity_id : Nat
deriving DecidableEq, Repr

/-- The per-activity static data the engine reads: its compatibility constraints. -/
structure Activity where
  constraints : List ActivityConstraint
deriving DecidableEq, Repr

/-- A product of the production plan: its id, activities, predecessor lists
indexed by activity id, temporal relations keyed by (predecessor, activity),
and its deadline. -/
structure Product where
  id : Nat
  activities : List Activity
  predecessors : List (List Nat)
  temporal_relations : List ((Nat × Nat) × TemporalRelation)
  deadline : Int
deriving DecidableEq, Repr

instance : Inhabited Activity := ⟨⟨[]⟩⟩

instance : Inhabited Product := ⟨⟨0, [], [], [], 0⟩⟩

/-- The factory data the simulator reads: resource group names and capacities. -/
structure Factory where
  resource_names : List String
  capacity : List Nat
deriving DecidableEq, Repr

/-- One entry of `plan.earliest_start`: the keys used to create the sentinel
resource-usage rows. -/
structure EarliestStartEntry where
  product_index : Nat
  activity_id : Nat
deriving DecidableEq, Repr

/-- The production plan handed to the simulator. -/
structure ProductionPlan where
  factory : Factory
  products : List Product
  earliest_start : List EarliestStartEntry
deriving DecidableEq, Repr

/-- A Python float timestamp that is either finite or the `float("inf")` sentinel. -/
inductive PyTime
  | inf
  | fin (t : Int)
deriving DecidableEq, Repr

/-- Python's binary `max` on two timestamps with the infinity sentinel. -/
def PyTime.maxT : PyTime → PyTime → PyTime
  | .inf, _ => .inf
  | _, .inf => .inf
  | .fin a, .fin b => .fin (max a b)

/-- Python's `max` over a list of timestamps; `none` embeds the `ValueError`
raised on an empty sequence. -/
def pyMaxT : List PyTime → Option PyTime
  | [] => none
  | t :: ts => some (ts.foldl PyTime.maxT t)

/-- Python's `max` over a list of finite values; `none` embeds the `ValueError`
raised on an empty sequence. -/
def pyMaxList : List Int → Option Int
  | [] => none
  | x :: xs => some (xs.foldl max x)

/-- The `Needs` column of a resource-usage row: `float("inf")` in the sentinel,
the needs vector after completion. -/
inductive NeedsVal
  | inf
  | vec (ns : List Nat)
deriving DecidableEq, Repr

/-- The `resources` column of a resource-usage row: the marker string in the
sentinel, the acquired instances after completion. -/
inductive ResourcesVal
  | marker (s : String)
  | used (rs : List Resource)
deriving DecidableEq, Repr

/-- One row of `self.resource_usage`. -/
structure UsageRecord where
  productIndex : Nat
  activity : Nat
  needs : NeedsVal
  resources : ResourcesVal
  request : PyTime
  retrieve : PyTime
  start : PyTime
  finish : PyTime
deriving DecidableEq, Repr

/-- The sentinel row written for every planned activity before the run
(`simulate`, loop over `plan.earliest_start`). -/
def sentinelRecord (product_index activity_id : Nat) : UsageRecord :=
  { productIndex := product_index
    activity := activity_id
    needs := .inf
    resources := .marker "NOT PROCESSED DUE TO CLASH"
    request := .inf
    retrieve := .inf
    start := .inf
    finish := .inf }

/-- One answer of `operator.send_next_activity`. -/
structure Decision where
  send_activity : Bool
  delay : Int
  activity_id : Nat
  product_index : Nat
  proc_time : Int
  needs : List Nat
  finish : Bool
deriving DecidableEq, Repr

/-- One call to `operator.signal_failed_activity`, recorded as observable output. -/
structure FailedSignal where
  product_index : Nat
  activity_id : Nat
  current_time : Int
  failure_code : FailureCode
deriving DecidableEq, Repr

/-- Modelled from the spec: `SimulatorLogger.fetch_latest_entry` is defined in
`classes/classes.py`, which is not among the sources; per section 4.2 of the
specification it returns the latest matching log entry for the given
(product index, activity id, action), or absent when none exists. -/
def fetch_latest_entry (lg : SimulatorLogger) (product_index activity_id : Nat)
    (action : Action) : Option LogEntry :=
  (lg.entries.filter (fun e =>
    decide (e.product_index = product_index) &&
    decide (e.activity_id = activity_id) &&
    decide (e.action = action))).getLast?

/-- Removes the first occurrence of a pair from the active-process set. -/
def erasePair : List (Nat × Nat) → Nat × Nat → List (Nat × Nat)
  | [], _ => []
  | p :: rest, key => if p = key then rest else p :: erasePair rest key

/-- Modelled from the spec: `SimulatorLogger.log_activity` is defined in
`classes/classes.py`, which is not among the sources; per section 4.2 of the
specification it appends the entry and, when the action is START, adds the
(product index, activity id) pair to the active set, and removes it on END. -/
def log_activity (lg : SimulatorLogger) (product_id activity_id product_index : Nat)
    (action : Action) (timestamp : Int) : SimulatorLogger :=
  { entries := lg.entries ++ [⟨product_id, activity_id, product_index, action, timestamp⟩]
    active_processes :=
      match action with
      | .START => lg.active_processes ++ [(product_index, activity_id)]
      | .END => erasePair lg.active_processes (product_index, activity_id)
    failure_code := lg.failure_code }

/-- Looks up the temporal relation for a (predecessor, activity) key, as
`self.plan.products[product_index].temporal_relations[(pred, act)]`. -/
def lookupTR : List ((Nat × Nat) × TemporalRelation) → Nat × Nat → Option TemporalRelation
  | [], _ => none
  | (k, v) :: rest, key => if k = key then some v else lookupTR rest key

/-- The loop body of `Simulator._availability_constraint_check`: iterates over the
needs vector with its index, overwriting `failure_code` with `AVAILABILITY`
whenever a group with positive need has fewer matching items in the factory. -/
def availLoop (names : List String) (items : List Resource) :
    List Nat → Nat → Option FailureCode → Option FailureCode
  | [], _, fc => fc
  | need :: rest, r, fc =>
    let fc' :=
      if need > 0 then
        if (items.map (fun i => i.resource_group)).count (names.getD r "") < need then
          some FailureCode.AVAILABILITY
        else fc
      else fc
    availLoop names items rest (r + 1) fc'

/-- Embedding of `Simulator._availability_constraint_check`. -/
def availability_constraint_check (names : List String) (items : List Resource)
    (needs : List Nat) : Option FailureCode :=
  availLoop names items needs 0 none

/-- The guard `temp_rel.max_lag and self.env.now - start_pred > temp_rel.max_lag`:
Python truthiness makes both an undefined (`None`) and a zero max lag skip the
comparison. -/
def maxLagTriggered (maxLag : Option Int) (elapsed : Int) : Bool :=
  match maxLag with
  | none => false
  | some m => if m = 0 then false else decide (elapsed > m)

/-- The loop of `Simulator._precedence_constraint_check` over the predecessor
list: a missing predecessor start returns `PRECEDENCE`; a violated min lag
writes `MIN_LAG` into the logger's `failure_code` and continues; a triggered
max lag returns `MAX_LAG`; otherwise the loop falls through and returns no code. -/
def precedenceLoop (prod : Product) (now : Int) (product_index activity_id : Nat) :
    List Nat → SimulatorLogger → Option FailureCode × SimulatorLogger
  | [], lg => (none, lg)
  | pred :: rest, lg =>
    let temp_rel := (lookupTR prod.temporal_relations (pred, activity_id)).getD ⟨0, none⟩
    match fetch_latest_entry lg product_index pred Action.START with
    | none => (some FailureCode.PRECEDENCE, lg)
    | some entry =>
      if now - entry.timestamp < temp_rel.min_lag then
        precedenceLoop prod now product_index activity_id rest
          { lg with failure_code := some FailureCode.MIN_LAG }
      else if maxLagTriggered temp_rel.max_lag (now - entry.timestamp) then
        (some FailureCode.MAX_LAG, lg)
      else
        precedenceLoop prod now product_index activity_id rest lg

/-- Embedding of `Simulator._precedence_constraint_check`; the returned logger
carries the `failure_code` mutation performed by the MIN_LAG branch. -/
def precedence_constraint_check (plan : ProductionPlan) (lg : SimulatorLogger)
    (now : Int) (product_index activity_id : Nat) :
    Option FailureCode × SimulatorLogger :=
  let prod := plan.products.getD product_index default
  precedenceLoop prod now product_index activity_id
    (prod.predecessors.getD activity_id []) lg

/-- The loop of `Simulator._compatibility_constraint_check` over the activity's
constraints: returns `COMPATIBILITY` on the first pair found in the active set. -/
def compatLoop (active : List (Nat × Nat)) : List ActivityConstraint → Option FailureCode
  | [] => none
  | c :: rest =>
    if (c.product_id, c.activity_id) ∈ active then some FailureCode.COMPATIBILITY
    else compatLoop active rest

/-- Embedding of `Simulator._compatibility_constraint_check`. -/
def compatibility_constraint_check (plan : ProductionPlan) (lg : SimulatorLogger)
    (product_index activity_id : Nat) : Option FailureCode :=
  compatLoop lg.active_processes
    (((plan.products.getD product_index default).activities.getD activity_id
      default).constraints)

/-- The short-circuit chain of `activity_processing` line 98:
`_availability_constraint_check(...) or _precedence_constraint_check(...) or
_compatibility_constraint_check(...)`; the returned logger carries the side
effects of the precedence check. -/
def constraint_check (plan : ProductionPlan) (items : List Resource)
    (lg : SimulatorLogger) (now : Int) (product_index activity_id : Nat)
    (needs : List Nat) : Option FailureCode × SimulatorLogger :=
  match availability_constraint_check plan.factory.resource_names items needs with
  | some c => (some c, lg)
  | none =>
    match precedence_constraint_check plan lg now product_index activity_id with
    | (some c, lg') => (some c, lg')
    | (none, lg') =>
      match compatibility_constraint_check plan lg' product_index activity_id with
      | some c => (some c, lg')
      | none => (none, lg')

/-- The target of a scheduled event: the dispatch generator or one activity process. -/
inductive EvTarget
  | generator
  | process (pid : Nat)
deriving DecidableEq, Repr

/-- A scheduled event of the cooperative event queue: its virtual time and the
global sequence number that realizes SimPy's FIFO ordering of simultaneous events. -/
structure Event where
  time : Int
  seq : Nat
  target : EvTarget
deriving DecidableEq, Repr

/-- The suspension-point state machine of one `activity_processing` generator:
`started` is the body about to run from the top; `acquiring` holds the groups
still to get and the instances already held; `running` waits out the processing
timeout; `releasing` returns instances one put at a time; `rejected` and
`finished` are the terminal states of the clash and completion branches. -/
inductive ProcPhase
  | started
  | acquiring (request_time : Int) (remaining : List String) (held : List Resource)
  | running (request_time retrieve_time start_time : Int) (held : List Resource)
  | releasing (request_time retrieve_time start_time end_time : Int)
      (resources : List Resource) (toRelease : List Resource)
  | rejected
  | finished
deriving DecidableEq, Repr

/-- One spawned activity process with the dispatch data it was created with. -/
structure Proc where
  pid : Nat
  activity_id : Nat
  product_index : Nat
  proc_time : Int
  needs : List Nat
  phase : ProcPhase
deriving DecidableEq, Repr

/-- The full state of one simulation run: the virtual clock, the sorted event
queue, the spawned processes, the FIFO queue of processes parked inside a
filtered get, the factory items, the logger, the resource-usage rows, the clash
counter, the operator notifications, and the remaining operator decisions. -/
structure SimState where
  now : Int
  queue : List Event
  nextSeq : Nat
  nextPid : Nat
  procs : List Proc
  getQueue : List Nat
  items : List Resource
  logger : SimulatorLogger
  resource_usage : List ((Nat × Nat) × UsageRecord)
  nr_clashes : Nat
  signals : List FailedSignal
  decisions : List Decision
deriving DecidableEq, Repr

/-- Inserts an event into the queue, keeping it sorted by (time, sequence). -/
def insertEvent (e : Event) : List Event → List Event
  | [] => [e]
  | f :: rest =>
    if e.time < f.time ∨ (e.time = f.time ∧ e.seq < f.seq) then e :: f :: rest
    else f :: insertEvent e rest

/-- Schedules a fresh event at the given time for the given target. -/
def scheduleEvent (t : Int) (tgt : EvTarget) (s : SimState) : SimState :=
  { s with queue := insertEvent ⟨t, s.nextSeq, tgt⟩ s.queue, nextSeq := s.nextSeq + 1 }

/-- Removes the first item satisfying the predicate, as SimPy's
`FilterStore._do_get` scanning `self.items` in order. -/
def removeFirstBy (p : Resource → Bool) : List Resource → Option (Resource × List Resource)
  | [] => none
  | x :: xs =>
    if p x then some (x, xs)
    else
      match removeFirstBy p xs with
      | none => none
      | some (y, rest) => some (y, x :: rest)

/-- Finds the process with the given pid. -/
def findProc (pid : Nat) : List Proc → Option Proc
  | [] => none
  | pr :: rest => if pr.pid = pid then some pr else findProc pid rest

/-- Replaces the first process with the given pid. -/
def setProc (pid : Nat) (npr : Proc) : List Proc → List Proc
  | [] => []
  | pr :: rest => if pr.pid = pid then npr :: rest else pr :: setProc pid npr rest

/-- Looks a key up in the resource-usage association list. -/
def lookupAssoc : List ((Nat × Nat) × UsageRecord) → Nat × Nat → Option UsageRecord
  | [], _ => none
  | (k, v) :: rest, key => if k = key then some v else lookupAssoc rest key

/-- Overwrites the value at a key in the resource-usage association list,
preserving its position, or appends the pair when the key is new — Python's
dictionary assignment semantics. -/
def updateAssoc : List ((Nat × Nat) × UsageRecord) → Nat × Nat → UsageRecord →
    List ((Nat × Nat) × UsageRecord)
  | [], key, v => [(key, v)]
  | (k, w) :: rest, key, v =>
    if k = key then (key, v) :: rest else (k, w) :: updateAssoc rest key v

/-- Flattens the needs vector into the sequence of group names requested one get
at a time by the acquisition loop of `activity_processing`. -/
def neededNamesFrom (names : List String) : Nat → List Nat → List String
  | _, [] => []
  | r, need :: rest =>
    List.replicate need (names.getD r "") ++ neededNamesFrom names (r + 1) rest

/-- The full sequence of group names an activity acquires, in loop order. -/
def neededNames (names : List String) (needs : List Nat) : List String :=
  neededNamesFrom names 0 needs

/-- One acquisition attempt of a process in the `acquiring` phase: with no groups
remaining it records retrieve and start times, logs START and schedules the
processing timeout; otherwise it performs one filtered get, either taking the
first matching item and rescheduling itself at the current instant, or parking
in the store's get queue. -/
def tryAcquire (plan : ProductionPlan) (s : SimState) (pid : Nat) : SimState :=
  match findProc pid s.procs with
  | none => s
  | some pr =>
    match pr.phase with
    | .acquiring rt [] held =>
      let lg := log_activity s.logger ((plan.products.getD pr.product_index default).id)
        pr.activity_id pr.product_index Action.START s.now
      scheduleEvent (s.now + pr.proc_time) (.process pid)
        { s with logger := lg,
                 procs := setProc pid { pr with phase := .running rt s.now s.now held } s.procs }
    | .acquiring rt (g :: gs) held =>
      match removeFirstBy (fun it => it.resource_group == g) s.items with
      | some (item, rest) =>
        scheduleEvent s.now (.process pid)
          { s with items := rest,
                   procs := setProc pid { pr with phase := .acquiring rt gs (held ++ [item]) } s.procs }
      | none => { s with getQueue := s.getQueue ++ [pid] }
    | _ => s

/-- The wake pass SimPy's `FilterStore` performs on every put: scan the get queue
in FIFO order, deliver the first matching item to each parked process that can
now be served, and keep the others parked. -/
def wakeLoop : List Nat → SimState → SimState
  | [], s => s
  | pid :: rest, s =>
    match findProc pid s.procs with
    | some pr =>
      match pr.phase with
      | .acquiring rt (g :: gs) held =>
        match removeFirstBy (fun it => it.resource_group == g) s.items with
        | some (item, remItems) =>
          wakeLoop rest (scheduleEvent s.now (.process pid)
            { s with items := remItems,
                     procs := setProc pid { pr with phase := .acquiring rt gs (held ++ [item]) } s.procs })
        | none => wakeLoop rest { s with getQueue := s.getQueue ++ [pid] }
      | _ => wakeLoop rest { s with getQueue := s.getQueue ++ [pid] }
    | none => wakeLoop rest { s with getQueue := s.getQueue ++ [pid] }

/-- Runs the wake pass over the whole get queue. -/
def wakeGetters (s : SimState) : SimState :=
  wakeLoop s.getQueue { s with getQueue := [] }

/-- One release step of a process in the `releasing` phase: with instances still
to return it puts one back (waking parked getters) and reschedules itself;
once all are returned it overwrites its resource-usage row with the completed
record and terminates. -/
def doRelease (s : SimState) (pid : Nat) : SimState :=
  match findProc pid s.procs with
  | none => s
  | some pr =>
    match pr.phase with
    | .releasing rt rv st en res [] =>
      let rec0 : UsageRecord :=
        { productIndex := pr.product_index
          activity := pr.activity_id
          needs := .vec pr.needs
          resources := .used res
          request := .fin rt
          retrieve := .fin rv
          start := .fin st
          finish := .fin en }
      let usage' := updateAssoc s.resource_usage (pr.product_index, pr.activity_id) rec0
      { s with resource_usage := usage', procs := setProc pid { pr with phase := .finished } s.procs }
    | .releasing rt rv st en res (r :: restR) =>
      let s1 := { s with items := s.items ++ [r],
                         procs := setProc pid { pr with phase := .releasing rt rv st en res restR } s.procs }
      let s2 := wakeGetters s1
      scheduleEvent s2.now (.process pid) s2
    | _ => s

/-- Runs one process from its current suspension point to the next: the first
segment records the request time, evaluates the constraint chain, stores the
result into the logger's `failure_code`, and either performs the clash branch
(operator notification, clash counter, terminate) or enters acquisition; later
segments continue acquisition, log END and start releasing when the processing
timeout elapses, and continue releasing. -/
def runProc (plan : ProductionPlan) (s : SimState) (pid : Nat) (pr : Proc) : SimState :=
  match pr.phase with
  | .started =>
    let request_time := s.now
    let res := constraint_check plan s.items s.logger s.now pr.product_index
      pr.activity_id pr.needs
    let lg2 := { res.2 with failure_code := res.1 }
    match res.1 with
    | some c =>
      { s with logger := lg2,
               signals := s.signals ++ [⟨pr.product_index, pr.activity_id, s.now, c⟩],
               nr_clashes := s.nr_clashes + 1,
               procs := setProc pid { pr with phase := .rejected } s.procs }
    | none =>
      let pr' := { pr with phase := .acquiring request_time (neededNames plan.factory.resource_names pr.needs) [] }
      tryAcquire plan { s with logger := lg2, procs := setProc pid pr' s.procs } pid
  | .acquiring _ _ _ => tryAcquire plan s pid
  | .running rt rv st held =>
    let lg := log_activity s.logger ((plan.products.getD pr.product_index default).id)
      pr.activity_id pr.product_index Action.END s.now
    doRelease
      { s with logger := lg,
               procs := setProc pid { pr with phase := .releasing rt rv st s.now held held } s.procs } pid
  | .releasing _ _ _ _ _ _ => doRelease s pid
  | .rejected => s
  | .finished => s

/-- Runs the process designated by an event, if it exists. -/
def procStep (plan : ProductionPlan) (s : SimState) (pid : Nat) : SimState :=
  match findProc pid s.procs with
  | none => s
  | some pr => runProc plan s pid pr

/-- One iteration of `activity_generator`: consume the next operator decision,
spawn an activity process when dispatching, and schedule the next iteration
after the decision's delay unless the operator signalled termination. -/
def genStep (s : SimState) : SimState :=
  match s.decisions with
  | [] => s
  | d :: rest =>
    let s1 := { s with decisions := rest }
    let s2 :=
      if d.send_activity then
        let npr : Proc := ⟨s1.nextPid, d.activity_id, d.product_index, d.proc_time, d.needs, .started⟩
        scheduleEvent s1.now (.process s1.nextPid)
          { s1 with procs := s1.procs ++ [npr], nextPid := s1.nextPid + 1 }
      else s1
    if d.finish then s2 else scheduleEvent (s2.now + d.delay) .generator s2

/-- One step of `env.run(until=sim_time)`: pop the earliest event; stop when the
queue is empty or the next event would occur at or past the horizon; otherwise
advance the clock to the event's time and run its target. -/
def step (plan : ProductionPlan) (sim_time : Int) (s : SimState) : Option SimState :=
  match s.queue with
  | [] => none
  | e :: rest =>
    if sim_time ≤ e.time then none
    else
      let s1 := { s with queue := rest, now := e.time }
      match e.target with
      | .generator => some (genStep s1)
      | .process pid => some (procStep plan s1 pid)

/-- Runs the event loop for at most `fuel` steps (every run of the engine takes
finitely many steps; claims are stated for every fuel). -/
def runLoop (plan : ProductionPlan) (sim_time : Int) : Nat → SimState → SimState
  | 0, s => s
  | n + 1, s =>
    match step plan sim_time s with
    | none => s
    | some s' => runLoop plan sim_time n s'

/-- The items created in `simulate` lines 215-221: for every resource group in
order, `capacity[r]` instances of that group, with ids `0..capacity[r]-1`. -/
def mkItemsFrom (caps : List Nat) : Nat → List String → List Resource
  | _, [] => []
  | r, nm :: rest =>
    (List.range (caps.getD r 0)).map (fun j => ⟨nm, j⟩) ++ mkItemsFrom caps (r + 1) rest

/-- The initial factory population. -/
def initItems (names : List String) (caps : List Nat) : List Resource :=
  mkItemsFrom caps 0 names

/-- The sentinel rows written for every entry of `plan.earliest_start` before the
run, with Python-dict overwrite semantics. -/
def initUsage (es : List EarliestStartEntry) : List ((Nat × Nat) × UsageRecord) :=
  es.foldl (fun acc act =>
    updateAssoc acc (act.product_index, act.activity_id)
      (sentinelRecord act.product_index act.activity_id)) []

/-- The state at the start of `env.run`: fresh clock, the generator's first event
at time 0, the initial items and sentinel rows, empty logger and counters. -/
def initState (plan : ProductionPlan) (decisions : List Decision) : SimState :=
  { now := 0
    queue := [⟨0, 0, .generator⟩]
    nextSeq := 1
    nextPid := 0
    procs := []
    getQueue := []
    items := initItems plan.factory.resource_names plan.factory.capacity
    logger := ⟨[], [], none⟩
    resource_usage := initUsage plan.earliest_start
    nr_clashes := 0
    signals := []
    decisions := decisions }

/-- The output table: the resource-usage rows in dictionary order. -/
def tableOf (plan : ProductionPlan) (decisions : List Decision) (sim_time : Int)
    (fuel : Nat) : List UsageRecord :=
  (runLoop plan sim_time fuel (initState plan decisions)).resource_usage.map (fun kv => kv.2)

/-- The finite finish times of a table, in row order (`[i for i in finish_times
if i != float("inf")]`). -/
def finiteFinishes (table : List UsageRecord) : List Int :=
  table.filterMap (fun r =>
    match r.finish with
    | .fin t => some t
    | .inf => none)

/-- The rows of one product, in table order. -/
def productRows (table : List UsageRecord) (p : Nat) : List UsageRecord :=
  table.filter (fun r => decide (r.productIndex = p))

/-- The per-product loop of `simulate` lines 242-251: compute each product's
maximal finish, count it unfinished when infinite, otherwise accumulate its
lateness; Python's `max` over an empty row set raises, embedded as `Except.error`. -/
def productMetricsLoop (table : List UsageRecord) :
    List Product → Nat → Int → Nat → Except String (Int × Nat)
  | [], _, lat, unf => .ok (lat, unf)
  | prod :: rest, p, lat, unf =>
    match pyMaxT ((productRows table p).map (fun r => r.finish)) with
    | none => .error "max() arg is an empty sequence"
    | some .inf => productMetricsLoop table rest (p + 1) lat (unf + 1)
    | some (.fin f) => productMetricsLoop table rest (p + 1) (lat + max 0 (f - prod.deadline)) unf

/-- Embedding of `Simulator.simulate`: initialize, run the event loop, then
reduce the table to the (makespan, lateness, unfinished) triple; the table is
returned alongside the triple as the run's observable output. The random seed
is consumed exactly as by the engine, which never reads it. -/
def simulate (plan : ProductionPlan) (decisions : List Decision) (random_seed : Nat)
    (sim_time : Int) (fuel : Nat) : Except String (List UsageRecord × Int × Int × Nat) :=
  let table := tableOf plan decisions sim_time fuel
  match pyMaxList (finiteFinishes table) with
  | none => .error "max() arg is an empty sequence"
  | some mk =>
    match productMetricsLoop table plan.products 0 0 0 with
    | .error e => .error e
    | .ok (lat, unf) => .ok (table, mk, lat, unf)

/-- The instances a process currently holds: the acquired items while acquiring
or running, and the not-yet-returned items while releasing. -/
def procHeld (pr : Proc) : List Resource :=
  match pr.phase with
  | .acquiring _ _ held => held
  | .running _ _ _ held => held
  | .releasing _ _ _ _ _ toRel => toRel
  | _ => []

/-- The number of instances of one resource group in a list. -/
def resCount (g : String) (l : List Resource) : Nat :=
  l.countP (fun it => it.resource_group == g)

/-- The number of instances of one group held across all processes. -/
def heldSum (g : String) (procs : List Proc) : Nat :=
  (procs.map (fun pr => resCount g (procHeld pr))).sum

/-- Available plus in-use instances of one resource group. -/
def poolCount (g : String) (s : SimState) : Nat :=
  resCount g s.items + heldSum g s.procs

/-- Whether some process for the given (product index, activity id) key has
completed (reached the branch that writes its resource-usage row). -/
def keyFinished (key : Nat × Nat) (procs : List Proc) : Bool :=
  procs.any (fun pr =>
    decide (pr.product_index = key.1) && decide (pr.activity_id = key.2) &&
    decide (pr.phase = ProcPhase.finished))

/-- The sentinel-row invariant: every resource-usage row whose activity has no
completed process is still the untouched sentinel. -/
def UsageInv (s : SimState) : Prop :=
  ∀ key rec, lookupAssoc s.resource_usage key = some rec →
    keyFinished key s.procs = false → rec = sentinelRecord key.1 key.2

/-- A product's lateness contribution: `max(0, finish - deadline)` when its
maximal finish is finite, zero otherwise. -/
def latVal (table : List UsageRecord) (p : Nat) (prod : Product) : Int :=
  match pyMaxT ((productRows table p).map (fun r => r.finish)) with
  | some (.fin f) => max 0 (f - prod.deadline)
  | _ => 0

/-- A product's unfinished contribution: one when its maximal finish is the
infinity sentinel, zero otherwise. -/
def unfVal (table : List UsageRecord) (p : Nat) : Nat :=
  if pyMaxT ((productRows table p).map (fun r => r.finish)) = some PyTime.inf then 1 else 0

/-- Total lateness as the claim states it: the sum over all products of the
per-product lateness contributions. -/
def latenessSpec (prods : List Product) (table : List UsageRecord) : Int :=
  ((List.enumFrom 0 prods).map (fun pe => latVal table pe.1 pe.2)).sum

/-- The unfinished-product count as the claim states it. -/
def unfinishedSpec (prods : List Product) (table : List UsageRecord) : Nat :=
  ((List.enumFrom 0 prods).map (fun pe => unfVal table pe.1)).sum

/-- A one-product, one-activity plan: activity (0,0) needs one unit of group A. -/
def prodA : Product :=
  { id := 0, activities := [⟨[]⟩], predecessors := [[]], temporal_relations := [], deadline := 10 }

/-- The plan around `prodA`: one group A of capacity 1. -/
def planA : ProductionPlan :=
  { factory := ⟨["A"], [1]⟩, products := [prodA], earliest_start := [⟨0, 0⟩] }

/-- One operator decision: dispatch activity (0,0) with processing time 4, then stop. -/
def decsA : List Decision := [⟨true, 0, 0, 0, 4, [1], true⟩]

/-- A product whose activity 1 has predecessor 0 with min lag 5 and no max lag. -/
def prodB : Product :=
  { id := 0, activities := [⟨[]⟩, ⟨[]⟩], predecessors := [[], [0]],
    temporal_relations := [((0, 1), ⟨5, none⟩)], deadline := 10 }

/-- The plan around `prodB`; no resources are involved. -/
def planB : ProductionPlan :=
  { factory := ⟨[], []⟩, products := [prodB], earliest_start := [⟨0, 0⟩, ⟨0, 1⟩] }

/-- A logger that has recorded the START of activity (0,0) at time 0. -/
def clogB : SimulatorLogger := ⟨[⟨0, 0, 0, .START, 0⟩], [(0, 0)], none⟩

/-- A state at time 0 with one process in the first segment for activity (0,1):
its predecessor started 0 time units ago, violating the min lag of 5. -/
def sB : SimState :=
  { now := 0, queue := [], nextSeq := 5, nextPid := 1,
    procs := [⟨0, 1, 0, 3, [], .started⟩], getQueue := [], items := [],
    logger := clogB, resource_usage := initUsage planB.earliest_start,
    nr_clashes := 0, signals := [], decisions := [] }

/-- A product whose activity 1 has predecessor 0 with min lag 0 and a defined
max lag of 0. -/
def prodC : Product :=
  { id := 0, activities := [⟨[]⟩, ⟨[]⟩], predecessors := [[], [0]],
    temporal_relations := [((0, 1), ⟨0, some 0⟩)], deadline := 10 }

/-- The plan around `prodC`. -/
def planC : ProductionPlan :=
  { factory := ⟨[], []⟩, products := [prodC], earliest_start := [⟨0, 0⟩, ⟨0, 1⟩] }

/-- A one-activity plan whose activity needs two units of group A while only one
exists. -/
def planD : ProductionPlan :=
  { factory := ⟨["A"], [1]⟩, products := [prodA], earliest_start := [⟨0, 0⟩] }

/-- A state at time 0 with one process in the first segment for activity (0,0)
of `planD`, needing two units of group A with one available. -/
def sD : SimState :=
  { now := 0, queue := [], nextSeq := 5, nextPid := 1,
    procs := [⟨0, 0, 0, 3, [2], .started⟩], getQueue := [], items := [⟨"A", 0⟩],
    logger := ⟨[], [], none⟩, resource_usage := initUsage planD.earliest_start,
    nr_clashes := 0, signals := [], decisions := [] }

theorem fetch_entries_only (lg : SimulatorLogger) (v : Option FailureCode)
    (pi ai : Nat) (act : Action) :
    fetch_latest_entry { lg with failure_code := v } pi ai act =
      fetch_latest_entry lg pi ai act := rfl

theorem precedenceLoop_frame (prod : Product) (now : Int) (pi ai : Nat) :
    ∀ (preds : List Nat) (lg : SimulatorLogger),
      ((precedenceLoop prod now pi ai preds lg).2).entries = lg.entries ∧
      ((precedenceLoop prod now pi ai preds lg).2).active_processes = lg.active_processes := by
  intro preds
  induction preds with
  | nil => intro lg; simp [precedenceLoop]
  | cons pred rest ih =>
    intro lg
    simp only [precedenceLoop]
    cases hf : fetch_latest_entry lg pi pred Action.START with
    | none => simp
    | some entry =>
      simp only
      split
      · exact ih _
      · split
        · simp
        · exact ih lg

theorem compat_congr (plan : ProductionPlan) (lg1 lg2 : SimulatorLogger)
    (pi ai : Nat) (h : lg1.active_processes = lg2.active_processes) :
    compatibility_constraint_check plan lg1 pi ai =
      compatibility_constraint_check plan lg2 pi ai := by
  simp [compatibility_constraint_check, h]

/-- C2 counterexample: at a concrete state with a violated min lag, the
constraint check returns a logger different from the one it was given — the
precedence check has written `MIN_LAG` into the logger's `failure_code`,
contradicting the claim that the check mutates no logger state. -/
theorem C2_counterexample :
    (constraint_check planB [] clogB 0 0 1 []).2 ≠ clogB ∧
    (constraint_check planB [] clogB 0 0 1 []).2.failure_code = some FailureCode.MIN_LAG ∧
    clogB.failure_code = none := by decide

theorem constraint_check_frame (plan : ProductionPlan) (items : List Resource)
    (lg : SimulatorLogger) (now : Int) (pi ai : Nat) (needs : List Nat) :
    ((constraint_check plan items lg now pi ai needs).2).entries = lg.entries ∧
    ((constraint_check plan items lg now pi ai needs).2).active_processes =
      lg.active_processes := by
  unfold constraint_check
  cases availability_constraint_check plan.factory.resource_names items needs with
  | some c => exact ⟨rfl, rfl⟩
  | none =>
    have hfr := precedenceLoop_frame (plan.products.getD pi default) now pi ai
      ((plan.products.getD pi default).predecessors.getD ai []) lg
    cases hp : precedence_constraint_check plan lg now pi ai with
    | mk p1 lg' =>
      have hlg' : lg' = (precedence_constraint_check plan lg now pi ai).2 := by rw [hp]
      have h1 : lg'.entries = lg.entries := by
        rw [hlg']; exact (precedenceLoop_frame _ now pi ai _ lg).1
      have h2 : lg'.active_processes = lg.active_processes := by
        rw [hlg']; exact (precedenceLoop_frame _ now pi ai _ lg).2
      cases p1 with
      | some c => simp only; exact ⟨h1, h2⟩
      | none =>
        simp only
        cases compatibility_constraint_check plan lg' pi ai with
        | some c => simp only; exact ⟨h1, h2⟩
        | none => simp only; exact ⟨h1, h2⟩

/-- C2 amended: the constraint check leaves the pool untouched and preserves the
log entries and the active-process set; the only state it may mutate is the
logger's `failure_code` field (written by the precedence check's MIN_LAG branch). -/
theorem C2_check_frame (plan : ProductionPlan) (items : List Resource)
    (lg : SimulatorLogger) (now : Int) (pi ai : Nat) (needs : List Nat) :
    ((constraint_check plan items lg now pi ai needs).2).entries = lg.entries ∧
    ((constraint_check plan items lg now pi ai needs).2).active_processes =
      lg.active_processes :=
  constraint_check_frame plan items lg now pi ai needs

/-- C8 counterexample: predecessor started at time 0, current time 5, min lag 0,
max lag defined as 0 and exceeded (5 > 0) — yet the precedence check yields no
failure code, because Python's truthiness test `temp_rel.max_lag and ...`
treats a zero max lag as undefined. -/
theorem C8_counterexample :
    (precedence_constraint_check planC clogB 5 0 1).1 = none ∧
    lookupTR prodC.temporal_relations (0, 1) = some ⟨0, some 0⟩ ∧
    fetch_latest_entry clogB 0 0 Action.START =
      some ⟨0, 0, 0, Action.START, 0⟩ ∧ (5 : Int) - 0 > 0 := by decide

/-- C8 amended, core lemma: when every predecessor before position `q` in the
scan has a recorded start, and `q` itself has a recorded start with elapsed at
least its min lag and a defined nonzero max lag smaller than the elapsed time,
the precedence loop returns `MAX_LAG`. -/
theorem precedenceLoop_maxlag (prod : Product) (now : Int) (pi ai : Nat)
    (q : Nat) (l2 : List Nat) (m : Int) :
    ∀ (l1 : List Nat) (lg : SimulatorLogger),
      (∀ x ∈ l1, (fetch_latest_entry lg pi x Action.START).isSome) →
      (∀ e, fetch_latest_entry lg pi q Action.START = some e →
        ¬ (now - e.timestamp <
            ((lookupTR prod.temporal_relations (q, ai)).getD ⟨0, none⟩).min_lag) ∧
        now - e.timestamp > m) →
      (fetch_latest_entry lg pi q Action.START).isSome →
      ((lookupTR prod.temporal_relations (q, ai)).getD ⟨0, none⟩).max_lag = some m →
      m ≠ 0 →
      (precedenceLoop prod now pi ai (l1 ++ q :: l2) lg).1 = some FailureCode.MAX_LAG := by
  intro l1
  induction l1 with
  | nil =>
    intro lg _ hq hqs hm hm0
    cases he : fetch_latest_entry lg pi q Action.START with
    | none => rw [he] at hqs; simp at hqs
    | some e =>
      have ⟨hmin, hgt⟩ := hq e he
      simp only [List.nil_append, precedenceLoop]
      rw [he]
      simp only [if_neg hmin]
      have htrig : maxLagTriggered
          ((lookupTR prod.temporal_relations (q, ai)).getD ⟨0, none⟩).max_lag
          (now - e.timestamp) = true := by
        rw [hm]; simp [maxLagTriggered, hm0, hgt]
      rw [htrig]
      simp
  | cons x rest ih =>
    intro lg hl1 hq hqs hm hm0
    simp only [List.cons_append, precedenceLoop]
    cases he : fetch_latest_entry lg pi x Action.START with
    | none =>
      have := hl1 x (by simp)
      rw [he] at this; simp at this
    | some e =>
      simp only
      split
      · exact ih _ (fun y hy => hl1 y (by simp [hy])) hq hqs hm hm0
      · split
        · rfl
        · exact ih lg (fun y hy => hl1 y (by simp [hy])) hq hqs hm hm0

/-- C8 amended: for every dispatched activity and every predecessor whose start
is recorded, when the precedence scan reaches that predecessor (every earlier
predecessor also has a recorded start), the elapsed time since its start is at
least its min lag, and its maximum lag is defined and nonzero with the elapsed
time exceeding it, the precedence check yields MAX_LAG. -/
theorem C8_maxlag_nonzero (plan : ProductionPlan) (lg : SimulatorLogger)
    (now : Int) (pi ai q : Nat) (l1 l2 : List Nat) (e : LogEntry) (m : Int)
    (hsplit : ((plan.products.getD pi default).predecessors).getD ai [] = l1 ++ q :: l2)
    (hl1 : ∀ x ∈ l1, (fetch_latest_entry lg pi x Action.START).isSome)
    (he : fetch_latest_entry lg pi q Action.START = some e)
    (hmin : ¬ (now - e.timestamp <
      ((lookupTR (plan.products.getD pi default).temporal_relations (q, ai)).getD
        ⟨0, none⟩).min_lag))
    (hm : ((lookupTR (plan.products.getD pi default).temporal_relations (q, ai)).getD
      ⟨0, none⟩).max_lag = some m)
    (hm0 : m ≠ 0)
    (hgt : now - e.timestamp > m) :
    (precedence_constraint_check plan lg now pi ai).1 = some FailureCode.MAX_LAG := by
  simp only [precedence_constraint_check]
  rw [hsplit]
  exact precedenceLoop_maxlag (plan.products.getD pi default) now pi ai q l2 m l1 lg hl1
    (fun e' he' => by
      rw [he] at he'
      cases he'
      exact ⟨hmin, hgt⟩)
    (by rw [he]; rfl) hm hm0

/-- C8 amended witness: a concrete run of the amended statement with a nonzero
max lag of 2 exceeded at elapsed 5. -/
theorem C8_maxlag_nonzero_witness :
    (precedence_constraint_check
      ⟨⟨[], []⟩, [⟨0, [⟨[]⟩, ⟨[]⟩], [[], [0]], [((0, 1), ⟨0, some 2⟩)], 10⟩], []⟩
      clogB 5 0 1).1 = some FailureCode.MAX_LAG := by
  exact C8_maxlag_nonzero _ clogB 5 0 1 0 [] [] ⟨0, 0, 0, Action.START, 0⟩ 2
    (by decide) (by decide) (by decide) (by decide) (by decide) (by decide) (by decide)

theorem findProc_pid (pid : Nat) :
    ∀ procs : List Proc, ∀ pr, findProc pid procs = some pr → pr.pid = pid := by
  intro procs
  induction procs with
  | nil => intro pr h; simp [findProc] at h
  | cons q rest ih =>
    intro pr h
    by_cases hq : q.pid = pid
    · simp [findProc, hq] at h
      rw [← h]; exact hq
    · simp [findProc, hq] at h
      exact ih pr h

theorem findProc_setProc (pid : Nat) (npr : Proc) (hnpr : npr.pid = pid) :
    ∀ procs : List Proc,
      findProc pid (setProc pid npr procs) =
        match findProc pid procs with
        | none => none
        | some _ => some npr := by
  intro procs
  induction procs with
  | nil => simp [findProc, setProc]
  | cons pr rest ih =>
    by_cases h : pr.pid = pid
    · simp [findProc, setProc, h, hnpr]
    · simp [findProc, setProc, h, ih]

theorem tryAcquire_eq_none (plan : ProductionPlan) (s : SimState) (pid : Nat)
    (h : findProc pid s.procs = none) : tryAcquire plan s pid = s := by
  simp [tryAcquire, h]

theorem tryAcquire_eq_start (plan : ProductionPlan) (s : SimState) (pid : Nat)
    (pr : Proc) (rt : Int) (held : List Resource)
    (h : findProc pid s.procs = some pr)
    (hph : pr.phase = ProcPhase.acquiring rt [] held) :
    tryAcquire plan s pid =
      scheduleEvent (s.now + pr.proc_time) (.process pid)
        { s with
            logger := log_activity s.logger ((plan.products.getD pr.product_index default).id)
              pr.activity_id pr.product_index Action.START s.now,
            procs := setProc pid { pr with phase := .running rt s.now s.now held } s.procs } := by
  simp [tryAcquire, h, hph]

theorem tryAcquire_eq_get (plan : ProductionPlan) (s : SimState) (pid : Nat)
    (pr : Proc) (rt : Int) (g : String) (gs : List String) (held : List Resource)
    (item : Resource) (rest : List Resource)
    (h : findProc pid s.procs = some pr)
    (hph : pr.phase = ProcPhase.acquiring rt (g :: gs) held)
    (hrem : removeFirstBy (fun it => it.resource_group == g) s.items = some (item, rest)) :
    tryAcquire plan s pid =
      scheduleEvent s.now (.process pid)
        { s with items := rest,
                 procs := setProc pid { pr with phase := .acquiring rt gs (held ++ [item]) } s.procs } := by
  simp [tryAcquire, h, hph, hrem]

theorem tryAcquire_eq_park (plan : ProductionPlan) (s : SimState) (pid : Nat)
    (pr : Proc) (rt : Int) (g : String) (gs : List String) (held : List Resource)
    (h : findProc pid s.procs = some pr)
    (hph : pr.phase = ProcPhase.acquiring rt (g :: gs) held)
    (hrem : removeFirstBy (fun it => it.resource_group == g) s.items = none) :
    tryAcquire plan s pid = { s with getQueue := s.getQueue ++ [pid] } := by
  simp [tryAcquire, h, hph, hrem]

theorem tryAcquire_eq_skip (plan : ProductionPlan) (s : SimState) (pid : Nat)
    (pr : Proc)
    (h : findProc pid s.procs = some pr)
    (hph : ∀ rt rem held, pr.phase ≠ ProcPhase.acquiring rt rem held) :
    tryAcquire plan s pid = s := by
  cases hp : pr.phase with
  | acquiring rt rem held => exact absurd hp (hph rt rem held)
  | started => simp [tryAcquire, h, hp]
  | running rt rv st held => simp [tryAcquire, h, hp]
  | releasing rt rv st en res toRel => simp [tryAcquire, h, hp]
  | rejected => simp [tryAcquire, h, hp]
  | finished => simp [tryAcquire, h, hp]

theorem tryAcquire_frame (plan : ProductionPlan) (s : SimState) (pid : Nat) :
    (tryAcquire plan s pid).nr_clashes = s.nr_clashes ∧
    (tryAcquire plan s pid).signals = s.signals ∧
    (tryAcquire plan s pid).resource_usage = s.resource_usage := by
  cases hf : findProc pid s.procs with
  | none => rw [tryAcquire_eq_none plan s pid hf]; exact ⟨rfl, rfl, rfl⟩
  | some pr =>
    cases hph : pr.phase with
    | acquiring rt rem held =>
      cases rem with
      | nil => rw [tryAcquire_eq_start plan s pid pr rt held hf hph]; exact ⟨rfl, rfl, rfl⟩
      | cons g gs =>
        cases hrem : removeFirstBy (fun it => it.resource_group == g) s.items with
        | none => rw [tryAcquire_eq_park plan s pid pr rt g gs held hf hph hrem]; exact ⟨rfl, rfl, rfl⟩
        | some x =>
          cases x with
          | mk item rest =>
            rw [tryAcquire_eq_get plan s pid pr rt g gs held item rest hf hph hrem]
            exact ⟨rfl, rfl, rfl⟩
    | started => rw [tryAcquire_eq_skip plan s pid pr hf (by rw [hph]; intro a b c h; exact absurd h (by simp))]; exact ⟨rfl, rfl, rfl⟩
    | running rt rv st held => rw [tryAcquire_eq_skip plan s pid pr hf (by rw [hph]; intro a b c h; exact absurd h (by simp))]; exact ⟨rfl, rfl, rfl⟩
    | releasing rt rv st en res toRel => rw [tryAcquire_eq_skip plan s pid pr hf (by rw [hph]; intro a b c h; exact absurd h (by simp))]; exact ⟨rfl, rfl, rfl⟩
    | rejected => rw [tryAcquire_eq_skip plan s pid pr hf (by rw [hph]; intro a b c h; exact absurd h (by simp))]; exact ⟨rfl, rfl, rfl⟩
    | finished => rw [tryAcquire_eq_skip plan s pid pr hf (by rw [hph]; intro a b c h; exact absurd h (by simp))]; exact ⟨rfl, rfl, rfl⟩

theorem tryAcquire_not_rejected (plan : ProductionPlan) (s : SimState) (pid : Nat)
    (pr : Proc) (rt : Int) (rem : List String) (held : List Resource)
    (hfind : findProc pid s.procs = some pr)
    (hph : pr.phase = ProcPhase.acquiring rt rem held) :
    ∃ pr', findProc pid (tryAcquire plan s pid).procs = some pr' ∧
      pr'.phase ≠ ProcPhase.rejected := by
  have hpid : pr.pid = pid := findProc_pid pid s.procs pr hfind
  cases rem with
  | nil =>
    rw [tryAcquire_eq_start plan s pid pr rt held hfind hph]
    refine ⟨{ pr with phase := .running rt s.now s.now held }, ?_, by simp⟩
    show findProc pid (setProc pid _ s.procs) = _
    rw [findProc_setProc pid _ (by simpa using hpid) s.procs, hfind]
  | cons g gs =>
    cases hrem : removeFirstBy (fun it => it.resource_group == g) s.items with
    | none =>
      rw [tryAcquire_eq_park plan s pid pr rt g gs held hfind hph hrem]
      exact ⟨pr, hfind, by rw [hph]; simp⟩
    | some x =>
      cases x with
      | mk item rest =>
        rw [tryAcquire_eq_get plan s pid pr rt g gs held item rest hfind hph hrem]
        refine ⟨{ pr with phase := .acquiring rt gs (held ++ [item]) }, ?_, by simp⟩
        show findProc pid (setProc pid _ s.procs) = _
        rw [findProc_setProc pid _ (by simpa using hpid) s.procs, hfind]

theorem scheduleEvent_now (t : Int) (tgt : EvTarget) (s : SimState) :
    (scheduleEvent t tgt s).now = s.now := rfl

theorem scheduleEvent_procs (t : Int) (tgt : EvTarget) (s : SimState) :
    (scheduleEvent t tgt s).procs = s.procs := rfl

theorem scheduleEvent_items (t : Int) (tgt : EvTarget) (s : SimState) :
    (scheduleEvent t tgt s).items = s.items := rfl

theorem scheduleEvent_logger (t : Int) (tgt : EvTarget) (s : SimState) :
    (scheduleEvent t tgt s).logger = s.logger := rfl

theorem scheduleEvent_usage (t : Int) (tgt : EvTarget) (s : SimState) :
    (scheduleEvent t tgt s).resource_usage = s.resource_usage := rfl

theorem scheduleEvent_clashes (t : Int) (tgt : EvTarget) (s : SimState) :
    (scheduleEvent t tgt s).nr_clashes = s.nr_clashes := rfl

theorem scheduleEvent_signals (t : Int) (tgt : EvTarget) (s : SimState) :
    (scheduleEvent t tgt s).signals = s.signals := rfl

theorem scheduleEvent_getQueue (t : Int) (tgt : EvTarget) (s : SimState) :
    (scheduleEvent t tgt s).getQueue = s.getQueue := rfl

theorem doRelease_eq_none (s : SimState) (pid : Nat)
    (h : findProc pid s.procs = none) : doRelease s pid = s := by
  simp [doRelease, h]

theorem doRelease_eq_fin (s : SimState) (pid : Nat) (pr : Proc)
    (rt rv st en : Int) (res : List Resource)
    (h : findProc pid s.procs = some pr)
    (hph : pr.phase = ProcPhase.releasing rt rv st en res []) :
    doRelease s pid =
      { s with
        resource_usage := (updateAssoc s.resource_usage (pr.product_index, pr.activity_id)
                            ⟨pr.product_index, pr.activity_id, .vec pr.needs, .used res,
                              .fin rt, .fin rv, .fin st, .fin en⟩),
        procs := setProc pid { pr with phase := .finished } s.procs } := by
  simp [doRelease, h, hph]

theorem doRelease_eq_put (s : SimState) (pid : Nat) (pr : Proc)
    (rt rv st en : Int) (res : List Resource) (r : Resource) (restR : List Resource)
    (h : findProc pid s.procs = some pr)
    (hph : pr.phase = ProcPhase.releasing rt rv st en res (r :: restR)) :
    doRelease s pid =
      scheduleEvent
        (wakeGetters { s with
          items := s.items ++ [r],
          procs := setProc pid { pr with phase := .releasing rt rv st en res restR } s.procs }).now
        (.process pid)
        (wakeGetters { s with
          items := s.items ++ [r],
          procs := setProc pid { pr with phase := .releasing rt rv st en res restR } s.procs }) := by
  simp [doRelease, h, hph]

theorem doRelease_eq_skip (s : SimState) (pid : Nat) (pr : Proc)
    (h : findProc pid s.procs = some pr)
    (hph : ∀ rt rv st en res toRel, pr.phase ≠ ProcPhase.releasing rt rv st en res toRel) :
    doRelease s pid = s := by
  cases hp : pr.phase with
  | releasing rt rv st en res toRel => exact absurd hp (hph rt rv st en res toRel)
  | started => simp [doRelease, h, hp]
  | acquiring rt rem held => simp [doRelease, h, hp]
  | running rt rv st held => simp [doRelease, h, hp]
  | rejected => simp [doRelease, h, hp]
  | finished => simp [doRelease, h, hp]

theorem runProc_eq_reject (plan : ProductionPlan) (s : SimState) (pid : Nat)
    (pr : Proc) (c : FailureCode) (lg' : SimulatorLogger)
    (hph : pr.phase = ProcPhase.started)
    (hres : constraint_check plan s.items s.logger s.now pr.product_index
      pr.activity_id pr.needs = (some c, lg')) :
    runProc plan s pid pr =
      { s with logger := { lg' with failure_code := some c },
               signals := s.signals ++ [⟨pr.product_index, pr.activity_id, s.now, c⟩],
               nr_clashes := s.nr_clashes + 1,
               procs := setProc pid { pr with phase := .rejected } s.procs } := by
  simp [runProc, hph, hres]

theorem runProc_eq_go (plan : ProductionPlan) (s : SimState) (pid : Nat)
    (pr : Proc) (lg' : SimulatorLogger)
    (hph : pr.phase = ProcPhase.started)
    (hres : constraint_check plan s.items s.logger s.now pr.product_index
      pr.activity_id pr.needs = (none, lg')) :
    runProc plan s pid pr =
      tryAcquire plan
        { s with
          logger := { lg' with failure_code := none },
          procs := setProc pid { pr with phase := .acquiring s.now (neededNames plan.factory.resource_names pr.needs) [] } s.procs } pid := by
  simp [runProc, hph, hres]

theorem runProc_eq_acquiring (plan : ProductionPlan) (s : SimState) (pid : Nat)
    (pr : Proc) (rt : Int) (rem : List String) (held : List Resource)
    (hph : pr.phase = ProcPhase.acquiring rt rem held) :
    runProc plan s pid pr = tryAcquire plan s pid := by
  simp [runProc, hph]

theorem runProc_eq_running (plan : ProductionPlan) (s : SimState) (pid : Nat)
    (pr : Proc) (rt rv st : Int) (held : List Resource)
    (hph : pr.phase = ProcPhase.running rt rv st held) :
    runProc plan s pid pr =
      doRelease
        { s with
          logger := log_activity s.logger ((plan.products.getD pr.product_index default).id) pr.activity_id pr.product_index Action.END s.now,
          procs := setProc pid { pr with phase := .releasing rt rv st s.now held held } s.procs }
        pid := by
  simp [runProc, hph]

theorem runProc_eq_releasing (plan : ProductionPlan) (s : SimState) (pid : Nat)
    (pr : Proc) (rt rv st en : Int) (res toRel : List Resource)
    (hph : pr.phase = ProcPhase.releasing rt rv st en res toRel) :
    runProc plan s pid pr = doRelease s pid := by
  simp [runProc, hph]

theorem runProc_eq_rejected (plan : ProductionPlan) (s : SimState) (pid : Nat)
    (pr : Proc) (hph : pr.phase = ProcPhase.rejected) :
    runProc plan s pid pr = s := by
  simp [runProc, hph]

theorem runProc_eq_finished (plan : ProductionPlan) (s : SimState) (pid : Nat)
    (pr : Proc) (hph : pr.phase = ProcPhase.finished) :
    runProc plan s pid pr = s := by
  simp [runProc, hph]

theorem procStep_eq_none (plan : ProductionPlan) (s : SimState) (pid : Nat)
    (h : findProc pid s.procs = none) : procStep plan s pid = s := by
  simp [procStep, h]

theorem procStep_eq_some (plan : ProductionPlan) (s : SimState) (pid : Nat)
    (pr : Proc) (h : findProc pid s.procs = some pr) :
    procStep plan s pid = runProc plan s pid pr := by
  simp [procStep, h]

theorem genStep_eq_nil (s : SimState) (h : s.decisions = []) : genStep s = s := by
  simp [genStep, h]

theorem genStep_eq_cons (s : SimState) (d : Decision) (rest : List Decision)
    (h : s.decisions = d :: rest) :
    genStep s =
      (if d.finish then
        (if d.send_activity then
          scheduleEvent s.now (.process s.nextPid)
            { s with decisions := rest,
                     procs := s.procs ++ [⟨s.nextPid, d.activity_id, d.product_index, d.proc_time, d.needs, .started⟩],
                     nextPid := s.nextPid + 1 }
        else { s with decisions := rest })
      else
        scheduleEvent (s.now + d.delay) .generator
          (if d.send_activity then
            scheduleEvent s.now (.process s.nextPid)
              { s with decisions := rest,
                       procs := s.procs ++ [⟨s.nextPid, d.activity_id, d.product_index, d.proc_time, d.needs, .started⟩],
                       nextPid := s.nextPid + 1 }
          else { s with decisions := rest })) := by
  by_cases hsa : d.send_activity <;> by_cases hfin : d.finish <;>
    simp [genStep, h, hsa, hfin, scheduleEvent_now]

theorem step_eq_nil (plan : ProductionPlan) (sim_time : Int) (s : SimState)
    (h : s.queue = []) : step plan sim_time s = none := by
  simp [step, h]

theorem step_eq_stop (plan : ProductionPlan) (sim_time : Int) (s : SimState)
    (e : Event) (rest : List Event) (h : s.queue = e :: rest)
    (ht : sim_time ≤ e.time) : step plan sim_time s = none := by
  simp [step, h, ht]

theorem step_eq_gen (plan : ProductionPlan) (sim_time : Int) (s : SimState)
    (e : Event) (rest : List Event) (h : s.queue = e :: rest)
    (ht : ¬ sim_time ≤ e.time) (htg : e.target = EvTarget.generator) :
    step plan sim_time s = some (genStep { s with queue := rest, now := e.time }) := by
  simp [step, h, ht, htg]

theorem step_eq_proc (plan : ProductionPlan) (sim_time : Int) (s : SimState)
    (e : Event) (rest : List Event) (pid : Nat) (h : s.queue = e :: rest)
    (ht : ¬ sim_time ≤ e.time) (htg : e.target = EvTarget.process pid) :
    step plan sim_time s =
      some (procStep plan { s with queue := rest, now := e.time } pid) := by
  simp [step, h, ht, htg]

/-- C1, core lemma: when every predecessor has a recorded start and no reached
max-lag test triggers, the precedence loop falls through and returns no failure
code; its final `failure_code` is either the incoming one or `MIN_LAG`, and it
is `MIN_LAG` whenever some predecessor's min lag is violated. -/
theorem precedenceLoop_fallthrough (prod : Product) (now : Int) (pi ai : Nat) :
    ∀ (preds : List Nat) (lg : SimulatorLogger),
      (∀ q ∈ preds, (fetch_latest_entry lg pi q Action.START).isSome) →
      (∀ q ∈ preds, ∀ e, fetch_latest_entry lg pi q Action.START = some e →
        ¬ (now - e.timestamp <
            ((lookupTR prod.temporal_relations (q, ai)).getD ⟨0, none⟩).min_lag) →
        maxLagTriggered ((lookupTR prod.temporal_relations (q, ai)).getD ⟨0, none⟩).max_lag
          (now - e.timestamp) = false) →
      (precedenceLoop prod now pi ai preds lg).1 = none ∧
      ((precedenceLoop prod now pi ai preds lg).2.failure_code = lg.failure_code ∨
        (precedenceLoop prod now pi ai preds lg).2.failure_code = some FailureCode.MIN_LAG) ∧
      ((∃ q ∈ preds, ∃ e, fetch_latest_entry lg pi q Action.START = some e ∧
          now - e.timestamp <
            ((lookupTR prod.temporal_relations (q, ai)).getD ⟨0, none⟩).min_lag) →
        (precedenceLoop prod now pi ai preds lg).2.failure_code = some FailureCode.MIN_LAG) := by
  intro preds
  induction preds with
  | nil =>
    intro lg _ _
    refine ⟨rfl, Or.inl rfl, ?_⟩
    intro hviol
    simp at hviol
  | cons pred rest ih =>
    intro lg hstart hnomax
    have hps := hstart pred (by simp)
    cases he : fetch_latest_entry lg pi pred Action.START with
    | none => rw [he] at hps; simp at hps
    | some e =>
      simp only [precedenceLoop]
      rw [he]
      simp only
      by_cases hlt : now - e.timestamp <
          ((lookupTR prod.temporal_relations (pred, ai)).getD ⟨0, none⟩).min_lag
      · rw [if_pos hlt]
        have hstart' : ∀ q ∈ rest,
            (fetch_latest_entry { lg with failure_code := some FailureCode.MIN_LAG }
              pi q Action.START).isSome := by
          intro q hq
          rw [fetch_entries_only]
          exact hstart q (by simp [hq])
        have hnomax' : ∀ q ∈ rest, ∀ e',
            fetch_latest_entry { lg with failure_code := some FailureCode.MIN_LAG }
              pi q Action.START = some e' →
            ¬ (now - e'.timestamp <
                ((lookupTR prod.temporal_relations (q, ai)).getD ⟨0, none⟩).min_lag) →
            maxLagTriggered
              ((lookupTR prod.temporal_relations (q, ai)).getD ⟨0, none⟩).max_lag
              (now - e'.timestamp) = false := by
          intro q hq e' he' hn
          rw [fetch_entries_only] at he'
          exact hnomax q (by simp [hq]) e' he' hn
        obtain ⟨h1, h2, _⟩ := ih { lg with failure_code := some FailureCode.MIN_LAG }
          hstart' hnomax'
        refine ⟨h1, ?_, ?_⟩
        · cases h2 with
          | inl h => exact Or.inr h
          | inr h => exact Or.inr h
        · intro _
          cases h2 with
          | inl h => exact h
          | inr h => exact h
      · rw [if_neg hlt]
        have htrig := hnomax pred (by simp) e he hlt
        rw [htrig]
        simp only [Bool.false_eq_true, if_false]
        have hstart' : ∀ q ∈ rest, (fetch_latest_entry lg pi q Action.START).isSome :=
          fun q hq => hstart q (by simp [hq])
        have hnomax' : ∀ q ∈ rest, ∀ e',
            fetch_latest_entry lg pi q Action.START = some e' →
            ¬ (now - e'.timestamp <
                ((lookupTR prod.temporal_relations (q, ai)).getD ⟨0, none⟩).min_lag) →
            maxLagTriggered
              ((lookupTR prod.temporal_relations (q, ai)).getD ⟨0, none⟩).max_lag
              (now - e'.timestamp) = false :=
          fun q hq => hnomax q (by simp [hq])
        obtain ⟨h1, h2, h3⟩ := ih lg hstart' hnomax'
        refine ⟨h1, h2, ?_⟩
        intro hviol
        obtain ⟨q, hq, e', he', hlt'⟩ := hviol
        cases List.mem_cons.mp hq with
        | inl hqp =>
          subst hqp
          rw [he] at he'
          cases he'
          exact absurd hlt' hlt
        | inr hqr => exact h3 ⟨q, hqr, e', he', hlt'⟩

/-- C1 counterexample: at the concrete state `sB` the claim's premises hold —
the only predecessor of activity (0,1) has a recorded start at 0, the current
time 0 gives elapsed 0 smaller than the min lag 5, and no predecessor yields
PRECEDENCE or MAX_LAG — yet the constraint check reports no failure code, the
activity is not rejected (no clash, no failure signal), it transitions to
running and a START entry is logged at the violating time. -/
theorem C1_counterexample :
    fetch_latest_entry clogB 0 0 Action.START = some ⟨0, 0, 0, Action.START, 0⟩ ∧
    ((0 : Int) - 0 < 5) ∧
    lookupTR prodB.temporal_relations (0, 1) = some ⟨5, none⟩ ∧
    (constraint_check planB [] clogB 0 0 1 []).1 ≠ some FailureCode.MIN_LAG ∧
    (constraint_check planB [] clogB 0 0 1 []).1 = none ∧
    (procStep planB sB 0).nr_clashes = 0 ∧
    (procStep planB sB 0).signals = [] ∧
    findProc 0 (procStep planB sB 0).procs =
      some ⟨0, 1, 0, 3, [], ProcPhase.running 0 0 0 []⟩ ∧
    (procStep planB sB 0).logger.entries.length = 2 := by decide

/-- C1 amended: for every activity whose precedence scan finds a min-lag
violation while every predecessor has a recorded start and no reached max-lag
test triggers, the precedence check writes MIN_LAG into the logger's
`failure_code` but returns no code, so when availability and compatibility also
pass the combined constraint check reports no failure code and the activity is
not rejected — no clash is counted and no failure signal is sent; it proceeds
toward acquiring resources. -/
theorem C1_minlag_fallthrough (plan : ProductionPlan) (s : SimState) (pid : Nat)
    (pr : Proc)
    (hfind : findProc pid s.procs = some pr)
    (hphase : pr.phase = ProcPhase.started)
    (havail : availability_constraint_check plan.factory.resource_names s.items
      pr.needs = none)
    (hstart : ∀ q ∈ ((plan.products.getD pr.product_index default).predecessors).getD
        pr.activity_id [],
      (fetch_latest_entry s.logger pr.product_index q Action.START).isSome)
    (hnomax : ∀ q ∈ ((plan.products.getD pr.product_index default).predecessors).getD
        pr.activity_id [], ∀ e,
      fetch_latest_entry s.logger pr.product_index q Action.START = some e →
      ¬ (s.now - e.timestamp <
          ((lookupTR (plan.products.getD pr.product_index default).temporal_relations
            (q, pr.activity_id)).getD ⟨0, none⟩).min_lag) →
      maxLagTriggered
        ((lookupTR (plan.products.getD pr.product_index default).temporal_relations
          (q, pr.activity_id)).getD ⟨0, none⟩).max_lag (s.now - e.timestamp) = false)
    (hviol : ∃ q ∈ ((plan.products.getD pr.product_index default).predecessors).getD
        pr.activity_id [], ∃ e,
      fetch_latest_entry s.logger pr.product_index q Action.START = some e ∧
      s.now - e.timestamp <
        ((lookupTR (plan.products.getD pr.product_index default).temporal_relations
          (q, pr.activity_id)).getD ⟨0, none⟩).min_lag)
    (hcompat : compatLoop s.logger.active_processes
      (((plan.products.getD pr.product_index default).activities.getD pr.activity_id
        default).constraints) = none) :
    (constraint_check plan s.items s.logger s.now pr.product_index pr.activity_id
      pr.needs).1 = none ∧
    ((precedence_constraint_check plan s.logger s.now pr.product_index
      pr.activity_id).2).failure_code = some FailureCode.MIN_LAG ∧
    (procStep plan s pid).nr_clashes = s.nr_clashes ∧
    (procStep plan s pid).signals = s.signals := by
  obtain ⟨hp1, _, hp3⟩ := precedenceLoop_fallthrough
    (plan.products.getD pr.product_index default) s.now pr.product_index pr.activity_id
    (((plan.products.getD pr.product_index default).predecessors).getD pr.activity_id [])
    s.logger hstart hnomax
  have hpc1 : (precedence_constraint_check plan s.logger s.now pr.product_index
      pr.activity_id).1 = none := hp1
  have hpc2 : ((precedence_constraint_check plan s.logger s.now pr.product_index
      pr.activity_id).2).failure_code = some FailureCode.MIN_LAG := hp3 hviol
  have hactive : ((precedence_constraint_check plan s.logger s.now pr.product_index
      pr.activity_id).2).active_processes = s.logger.active_processes :=
    (precedenceLoop_frame _ s.now pr.product_index pr.activity_id _ s.logger).2
  have hcompat' : compatibility_constraint_check plan
      (precedence_constraint_check plan s.logger s.now pr.product_index
        pr.activity_id).2 pr.product_index pr.activity_id = none := by
    unfold compatibility_constraint_check
    rw [hactive]
    exact hcompat
  have hcc : (constraint_check plan s.items s.logger s.now pr.product_index
      pr.activity_id pr.needs).1 = none := by
    unfold constraint_check
    rw [havail]
    cases hp : precedence_constraint_check plan s.logger s.now pr.product_index
      pr.activity_id with
    | mk p1 lg' =>
      rw [hp] at hpc1
      simp only at hpc1
      subst hpc1
      simp only
      rw [hp] at hcompat'
      simp only at hcompat'
      rw [hcompat']
  refine ⟨hcc, hpc2, ?_, ?_⟩
  · cases hres : constraint_check plan s.items s.logger s.now pr.product_index
      pr.activity_id pr.needs with
    | mk fc lg' =>
      rw [hres] at hcc
      simp only at hcc
      subst hcc
      rw [procStep_eq_some plan s pid pr hfind,
        runProc_eq_go plan s pid pr lg' hphase hres]
      exact (tryAcquire_frame plan _ pid).1
  · cases hres : constraint_check plan s.items s.logger s.now pr.product_index
      pr.activity_id pr.needs with
    | mk fc lg' =>
      rw [hres] at hcc
      simp only at hcc
      subst hcc
      rw [procStep_eq_some plan s pid pr hfind,
        runProc_eq_go plan s pid pr lg' hphase hres]
      exact (tryAcquire_frame plan _ pid).2.1

/-- C1 amended witness: the amended statement applied at the concrete state `sB`
with the min lag 5 violated at elapsed 0. -/
theorem C1_minlag_fallthrough_witness :
    (constraint_check planB [] clogB 0 0 1 []).1 = none ∧
    ((precedence_constraint_check planB clogB 0 0 1).2).failure_code =
      some FailureCode.MIN_LAG ∧
    (procStep planB sB 0).nr_clashes = sB.nr_clashes ∧
    (procStep planB sB 0).signals = sB.signals := by
  refine C1_minlag_fallthrough planB sB 0 ⟨0, 1, 0, 3, [], .started⟩
    (by decide) (by decide) (by decide) ?_ ?_ ?_ (by decide)
  · show ∀ q ∈ [0], (fetch_latest_entry clogB 0 q Action.START).isSome = true
    intro q hq
    rw [List.mem_singleton] at hq
    subst hq
    decide
  · show ∀ q ∈ [0], ∀ e, fetch_latest_entry clogB 0 q Action.START = some e →
      ¬ ((0 : Int) - e.timestamp <
          ((lookupTR prodB.temporal_relations (q, 1)).getD ⟨0, none⟩).min_lag) →
      maxLagTriggered ((lookupTR prodB.temporal_relations (q, 1)).getD ⟨0, none⟩).max_lag
        ((0 : Int) - e.timestamp) = false
    intro q hq e he _
    rw [List.mem_singleton] at hq
    subst hq
    rw [show fetch_latest_entry clogB 0 0 Action.START =
      some ⟨0, 0, 0, Action.START, 0⟩ from rfl] at he
    cases he
    decide
  · exact ⟨0, by decide, ⟨0, 0, 0, Action.START, 0⟩, by decide, by decide⟩

/-- C3: the three checks are combined in the fixed order availability, then
precedence, then compatibility, with short-circuiting — the code of the first
check that yields one is the combined result — and when none yields a code the
dispatched activity is not rejected: no clash is counted, no failure signal is
sent, and its process continues toward acquisition. -/
theorem C3_check_priority (plan : ProductionPlan) (s : SimState) (pid : Nat)
    (pr : Proc)
    (hfind : findProc pid s.procs = some pr)
    (hphase : pr.phase = ProcPhase.started) :
    (∀ c, availability_constraint_check plan.factory.resource_names s.items pr.needs = some c →
      (constraint_check plan s.items s.logger s.now pr.product_index pr.activity_id
        pr.needs).1 = some c) ∧
    (∀ c, availability_constraint_check plan.factory.resource_names s.items pr.needs = none →
      (precedence_constraint_check plan s.logger s.now pr.product_index pr.activity_id).1 =
        some c →
      (constraint_check plan s.items s.logger s.now pr.product_index pr.activity_id
        pr.needs).1 = some c) ∧
    (availability_constraint_check plan.factory.resource_names s.items pr.needs = none →
      (precedence_constraint_check plan s.logger s.now pr.product_index pr.activity_id).1 =
        none →
      (constraint_check plan s.items s.logger s.now pr.product_index pr.activity_id
        pr.needs).1 =
        compatibility_constraint_check plan
          (precedence_constraint_check plan s.logger s.now pr.product_index pr.activity_id).2
          pr.product_index pr.activity_id) ∧
    ((constraint_check plan s.items s.logger s.now pr.product_index pr.activity_id
        pr.needs).1 = none →
      (procStep plan s pid).nr_clashes = s.nr_clashes ∧
      (procStep plan s pid).signals = s.signals ∧
      ∃ pr', findProc pid (procStep plan s pid).procs = some pr' ∧
        pr'.phase ≠ ProcPhase.rejected) := by
  refine ⟨?_, ?_, ?_, ?_⟩
  · intro c hc
    unfold constraint_check
    rw [hc]
  · intro c ha hp
    unfold constraint_check
    rw [ha]
    cases hpp : precedence_constraint_check plan s.logger s.now pr.product_index
      pr.activity_id with
    | mk p1 lg' =>
      rw [hpp] at hp
      simp only at hp
      subst hp
      rfl
  · intro ha hp
    unfold constraint_check
    rw [ha]
    cases hpp : precedence_constraint_check plan s.logger s.now pr.product_index
      pr.activity_id with
    | mk p1 lg' =>
      rw [hpp] at hp
      simp only at hp
      subst hp
      simp only
      cases compatibility_constraint_check plan lg' pr.product_index pr.activity_id with
      | none => rfl
      | some c => rfl
  · intro h0
    cases hres : constraint_check plan s.items s.logger s.now pr.product_index
      pr.activity_id pr.needs with
    | mk fc lg' =>
      rw [hres] at h0
      simp only at h0
      subst h0
      rw [procStep_eq_some plan s pid pr hfind,
        runProc_eq_go plan s pid pr lg' hphase hres]
      have hpid : pr.pid = pid := findProc_pid pid s.procs pr hfind
      refine ⟨(tryAcquire_frame plan _ pid).1, (tryAcquire_frame plan _ pid).2.1, ?_⟩
      apply tryAcquire_not_rejected plan _ pid
        { pr with phase := .acquiring s.now (neededNames plan.factory.resource_names pr.needs) [] }
        s.now (neededNames plan.factory.resource_names pr.needs) []
      · show findProc pid (setProc pid _ s.procs) = _
        rw [findProc_setProc pid _ (by simpa using hpid) s.procs, hfind]
      · rfl

/-- C3 witness: at the concrete state `sD` the availability check fails (need 2,
capacity 1) and its code is the combined result. -/
theorem C3_check_priority_witness :
    (constraint_check planD sD.items sD.logger sD.now 0 0 [2]).1 =
      some FailureCode.AVAILABILITY := by
  exact (C3_check_priority planD sD 0 ⟨0, 0, 0, 3, [2], .started⟩ (by decide)
    (by decide)).1 FailureCode.AVAILABILITY (by decide)

/-- C4: when the constraint check of a dispatched activity yields a failure
code, the single rejection step notifies the operator with exactly (product
index, activity id, failure code, current time), increments the clash counter
by one, removes no resource from the pool, writes no log entry, leaves the
active set and every resource-usage row unchanged, and terminates the process
in the rejected state. -/
theorem C4_reject_frame (plan : ProductionPlan) (s : SimState) (pid : Nat)
    (pr : Proc) (c : FailureCode)
    (hfind : findProc pid s.procs = some pr)
    (hphase : pr.phase = ProcPhase.started)
    (hfc : (constraint_check plan s.items s.logger s.now pr.product_index
      pr.activity_id pr.needs).1 = some c) :
    (procStep plan s pid).signals =
      s.signals ++ [⟨pr.product_index, pr.activity_id, s.now, c⟩] ∧
    (procStep plan s pid).nr_clashes = s.nr_clashes + 1 ∧
    (procStep plan s pid).items = s.items ∧
    (procStep plan s pid).logger.entries = s.logger.entries ∧
    (procStep plan s pid).logger.active_processes = s.logger.active_processes ∧
    (procStep plan s pid).resource_usage = s.resource_usage ∧
    findProc pid (procStep plan s pid).procs = some { pr with phase := ProcPhase.rejected } := by
  cases hres : constraint_check plan s.items s.logger s.now pr.product_index
    pr.activity_id pr.needs with
  | mk fc lg' =>
    rw [hres] at hfc
    simp only at hfc
    subst hfc
    have hfr := constraint_check_frame plan s.items s.logger s.now pr.product_index
      pr.activity_id pr.needs
    rw [hres] at hfr
    simp only at hfr
    have hpid : pr.pid = pid := findProc_pid pid s.procs pr hfind
    rw [procStep_eq_some plan s pid pr hfind,
      runProc_eq_reject plan s pid pr c lg' hphase hres]
    refine ⟨rfl, rfl, rfl, hfr.1, hfr.2, rfl, ?_⟩
    show findProc pid (setProc pid _ s.procs) = _
    rw [findProc_setProc pid _ (by simpa using hpid) s.procs, hfind]

/-- C4 witness: the rejection step at the concrete state `sD`, where the
availability check fails. -/
theorem C4_reject_frame_witness :
    (procStep planD sD 0).signals =
      sD.signals ++ [⟨0, 0, 0, FailureCode.AVAILABILITY⟩] ∧
    (procStep planD sD 0).nr_clashes = sD.nr_clashes + 1 ∧
    (procStep planD sD 0).items = sD.items ∧
    (procStep planD sD 0).logger.entries = sD.logger.entries ∧
    (procStep planD sD 0).logger.active_processes = sD.logger.active_processes ∧
    (procStep planD sD 0).resource_usage = sD.resource_usage ∧
    findProc 0 (procStep planD sD 0).procs =
      some ⟨0, 0, 0, 3, [2], ProcPhase.rejected⟩ := by
  exact C4_reject_frame planD sD 0 ⟨0, 0, 0, 3, [2], .started⟩ FailureCode.AVAILABILITY
    (by decide) (by decide) (by decide)

/-- C9: the engine is deterministic — two runs with identical plan, operator
decisions, seed, horizon and step budget produce identical output tables and
identical (makespan, lateness, unfinished) triples. -/
theorem C9_determinism (p1 p2 : ProductionPlan) (d1 d2 : List Decision)
    (r1 r2 : Nat) (t1 t2 : Int) (f1 f2 : Nat)
    (hp : p1 = p2) (hd : d1 = d2) (hr : r1 = r2) (ht : t1 = t2) (hf : f1 = f2) :
    simulate p1 d1 r1 t1 f1 = simulate p2 d2 r2 t2 f2 := by
  subst hp; subst hd; subst hr; subst ht; subst hf; rfl

/-- C9 witness: determinism applied at the concrete plan `planA`. -/
theorem C9_determinism_witness :
    simulate planA decsA 1 1000 10 = simulate planA decsA 1 1000 10 :=
  C9_determinism planA planA decsA decsA 1 1 1000 1000 10 10 rfl rfl rfl rfl rfl

theorem foldlMax_self_le : ∀ (xs : List Int) (a : Int), a ≤ xs.foldl max a := by
  intro xs
  induction xs with
  | nil => intro a; exact le_refl a
  | cons x xs ih =>
    intro a
    calc a ≤ max a x := le_max_left a x
    _ ≤ (x :: xs).foldl max a := ih (max a x)

theorem foldlMax_le_of_mem : ∀ (xs : List Int) (a x : Int), x ∈ xs → x ≤ xs.foldl max a := by
  intro xs
  induction xs with
  | nil => intro a x h; simp at h
  | cons y ys ih =>
    intro a x h
    cases List.mem_cons.mp h with
    | inl hxy =>
      subst hxy
      calc x ≤ max a x := le_max_right a x
      _ ≤ ys.foldl max (max a x) := foldlMax_self_le ys (max a x)
    | inr hys => exact ih (max a y) x hys

theorem foldlMax_mem : ∀ (xs : List Int) (a : Int),
    xs.foldl max a = a ∨ xs.foldl max a ∈ xs := by
  intro xs
  induction xs with
  | nil => intro a; exact Or.inl rfl
  | cons y ys ih =>
    intro a
    cases ih (max a y) with
    | inl h =>
      cases max_choice a y with
      | inl ha => exact Or.inl (by rw [List.foldl_cons, h, ha])
      | inr hy => exact Or.inr (by rw [List.foldl_cons, h, hy]; exact List.mem_cons_self y ys)
    | inr h => exact Or.inr (List.mem_cons_of_mem y h)

theorem pyMaxList_spec (l : List Int) (mk : Int) (h : pyMaxList l = some mk) :
    mk ∈ l ∧ ∀ x ∈ l, x ≤ mk := by
  cases l with
  | nil => simp [pyMaxList] at h
  | cons x xs =>
    simp only [pyMaxList, Option.some.injEq] at h
    subst h
    constructor
    · cases foldlMax_mem xs x with
      | inl he => rw [he]; exact List.mem_cons_self x xs
      | inr he => exact List.mem_cons_of_mem x he
    · intro y hy
      cases List.mem_cons.mp hy with
      | inl hyx => subst hyx; exact foldlMax_self_le xs y
      | inr hyxs => exact foldlMax_le_of_mem xs x y hyxs

/-- C5: whenever `simulate` returns a result, its makespan is the maximum of
the finite Finish values of the output table; and when no row has a finite
Finish, `simulate` produces the distinct empty-sequence error state (Python's
uncaught `ValueError` from `max` of an empty sequence) instead of any numeric
default. -/
theorem C5_makespan (plan : ProductionPlan) (decs : List Decision) (seed : Nat)
    (sim_time : Int) (fuel : Nat) :
    (∀ t mk lat unf, simulate plan decs seed sim_time fuel = .ok (t, mk, lat, unf) →
      t = tableOf plan decs sim_time fuel ∧
      mk ∈ finiteFinishes (tableOf plan decs sim_time fuel) ∧
      ∀ x ∈ finiteFinishes (tableOf plan decs sim_time fuel), x ≤ mk) ∧
    (finiteFinishes (tableOf plan decs sim_time fuel) = [] →
      simulate plan decs seed sim_time fuel = .error "max() arg is an empty sequence") := by
  constructor
  · intro t mk lat unf h
    simp only [simulate] at h
    cases hm : pyMaxList (finiteFinishes (tableOf plan decs sim_time fuel)) with
    | none => rw [hm] at h; simp at h
    | some mk' =>
      rw [hm] at h
      cases hpm : productMetricsLoop (tableOf plan decs sim_time fuel) plan.products 0 0 0 with
      | error e => rw [hpm] at h; simp at h
      | ok p =>
        obtain ⟨lat', unf'⟩ := p
        rw [hpm] at h
        simp only [Except.ok.injEq, Prod.mk.injEq] at h
        obtain ⟨ht, hmk, _, _⟩ := h
        subst ht
        subst hmk
        exact ⟨rfl, (pyMaxList_spec _ mk' hm).1, (pyMaxList_spec _ mk' hm).2⟩
  · intro h0
    simp only [simulate]
    rw [h0]
    rfl

/-- C5 witness: on the concrete run of `planA` the returned makespan 4 is the
maximum finite finish. -/
theorem C5_makespan_witness :
    (4 : Int) ∈ finiteFinishes (tableOf planA decsA 1000 10) ∧
    ∀ x ∈ finiteFinishes (tableOf planA decsA 1000 10), x ≤ 4 := by
  have h := (C5_makespan planA decsA 1 1000 10).1
    [⟨0, 0, .vec [1], .used [⟨"A", 0⟩], .fin 0, .fin 0, .fin 0, .fin 4⟩] 4 0 0 rfl
  exact ⟨h.2.1, h.2.2⟩

theorem productMetricsLoop_ok (table : List UsageRecord) :
    ∀ (prods : List Product) (p0 : Nat) (lat0 : Int) (unf0 : Nat),
      (∀ i, i < prods.length → productRows table (p0 + i) ≠ []) →
      productMetricsLoop table prods p0 lat0 unf0 =
        .ok (lat0 + ((List.enumFrom p0 prods).map (fun pe => latVal table pe.1 pe.2)).sum,
             unf0 + ((List.enumFrom p0 prods).map (fun pe => unfVal table pe.1)).sum) := by
  intro prods
  induction prods with
  | nil => intro p0 lat0 unf0 _; simp [productMetricsLoop, List.enumFrom]
  | cons prod rest ih =>
    intro p0 lat0 unf0 h
    have hne : productRows table p0 ≠ [] := by
      have h0 := h 0 (by simp)
      simpa using h0
    have hshift : ∀ i, i < rest.length → productRows table (p0 + 1 + i) ≠ [] := by
      intro i hi
      have h1 := h (i + 1) (by simp; omega)
      have : p0 + (i + 1) = p0 + 1 + i := by omega
      rw [this] at h1
      exact h1
    cases hrows : productRows table p0 with
    | nil => exact absurd hrows hne
    | cons a as =>
      have ht : pyMaxT ((productRows table p0).map (fun r => r.finish)) =
          some (((as.map (fun r => r.finish)).foldl PyTime.maxT a.finish)) := by
        rw [hrows]; rfl
      cases hv : (as.map (fun r => r.finish)).foldl PyTime.maxT a.finish with
      | inf =>
        rw [hv] at ht
        have hstep : productMetricsLoop table (prod :: rest) p0 lat0 unf0 =
            productMetricsLoop table rest (p0 + 1) lat0 (unf0 + 1) := by
          simp only [productMetricsLoop, ht]
        have hlat : latVal table p0 prod = 0 := by simp [latVal, ht]
        have hunf : unfVal table p0 = 1 := by simp [unfVal, ht]
        rw [hstep, ih (p0 + 1) lat0 (unf0 + 1) hshift]
        simp only [List.enumFrom, List.map_cons, List.sum_cons, hlat, hunf,
          Except.ok.injEq, Prod.mk.injEq]
        constructor
        · omega
        · omega
      | fin f =>
        rw [hv] at ht
        have hstep : productMetricsLoop table (prod :: rest) p0 lat0 unf0 =
            productMetricsLoop table rest (p0 + 1) (lat0 + max 0 (f - prod.deadline)) unf0 := by
          simp only [productMetricsLoop, ht]
        have hlat : latVal table p0 prod = max 0 (f - prod.deadline) := by
          simp [latVal, ht]
        have hunf : unfVal table p0 = 0 := by simp [unfVal, ht]
        rw [hstep, ih (p0 + 1) (lat0 + max 0 (f - prod.deadline)) unf0 hshift]
        simp only [List.enumFrom, List.map_cons, List.sum_cons, hlat, hunf,
          Except.ok.injEq, Prod.mk.injEq]
        constructor
        · omega
        · omega

/-- C6: under the conditions in which the Python run completes (every product
has at least one row and some activity finished), `simulate` returns the triple
whose lateness is the sum over products with a finite maximal finish of
`max(0, finish - deadline)`, and whose unfinished count is the number of
products whose maximal finish is the infinity sentinel. -/
theorem C6_product_metrics (plan : ProductionPlan) (decs : List Decision)
    (seed : Nat) (sim_time : Int) (fuel : Nat)
    (hrows : ∀ p, p < plan.products.length →
      productRows (tableOf plan decs sim_time fuel) p ≠ [])
    (hfin : finiteFinishes (tableOf plan decs sim_time fuel) ≠ []) :
    ∃ mk, simulate plan decs seed sim_time fuel =
      .ok (tableOf plan decs sim_time fuel, mk,
        latenessSpec plan.products (tableOf plan decs sim_time fuel),
        unfinishedSpec plan.products (tableOf plan decs sim_time fuel)) := by
  have hm : ∃ mk, pyMaxList (finiteFinishes (tableOf plan decs sim_time fuel)) = some mk := by
    cases hc : finiteFinishes (tableOf plan decs sim_time fuel) with
    | nil => exact absurd hc hfin
    | cons x xs => exact ⟨_, rfl⟩
  obtain ⟨mk, hmk⟩ := hm
  refine ⟨mk, ?_⟩
  simp only [simulate]
  rw [hmk]
  rw [productMetricsLoop_ok (tableOf plan decs sim_time fuel) plan.products 0 0 0
    (fun i hi => by simpa using hrows i hi)]
  simp [latenessSpec, unfinishedSpec]

/-- C6 witness: the per-product metrics on the concrete run of `planA`. -/
theorem C6_product_metrics_witness :
    ∃ mk, simulate planA decsA 1 1000 10 =
      .ok (tableOf planA decsA 1000 10, mk,
        latenessSpec planA.products (tableOf planA decsA 1000 10),
        unfinishedSpec planA.products (tableOf planA decsA 1000 10)) := by
  refine C6_product_metrics planA decsA 1 1000 10 ?_ (by decide)
  intro p hp
  have h1 : p < 1 := hp
  have h0 : p = 0 := Nat.lt_one_iff.mp h1
  subst h0
  decide

theorem resCount_append (g : String) (a b : List Resource) :
    resCount g (a ++ b) = resCount g a + resCount g b := by
  simp [resCount, List.countP_append]

theorem resCount_one (g : String) (item : Resource) :
    resCount g [item] = if item.resource_group == g then 1 else 0 := by
  simp [resCount, List.countP_cons]

theorem removeFirstBy_countP (p q : Resource → Bool) :
    ∀ (l : List Resource) (x : Resource) (rest : List Resource),
      removeFirstBy p l = some (x, rest) →
      l.countP q = rest.countP q + (if q x then 1 else 0) := by
  intro l
  induction l with
  | nil => intro x rest h; simp [removeFirstBy] at h
  | cons y ys ih =>
    intro x rest h
    by_cases hy : p y
    · simp only [removeFirstBy, if_pos hy, Option.some.injEq, Prod.mk.injEq] at h
      obtain ⟨hx, hrest⟩ := h
      subst hx
      subst hrest
      simp [List.countP_cons]
    · simp only [removeFirstBy, if_neg hy] at h
      cases hz : removeFirstBy p ys with
      | none => rw [hz] at h; simp at h
      | some z =>
        obtain ⟨z1, zs⟩ := z
        rw [hz] at h
        simp only [Option.some.injEq, Prod.mk.injEq] at h
        obtain ⟨hx, hrest⟩ := h
        subst hx
        subst hrest
        have hih := ih z1 zs hz
        simp only [List.countP_cons, hih]
        omega

theorem heldSum_nil (g : String) : heldSum g [] = 0 := rfl

theorem heldSum_cons (g : String) (pr : Proc) (procs : List Proc) :
    heldSum g (pr :: procs) = resCount g (procHeld pr) + heldSum g procs := by
  simp [heldSum]

theorem heldSum_append_one (g : String) (procs : List Proc) (pr : Proc) :
    heldSum g (procs ++ [pr]) = heldSum g procs + resCount g (procHeld pr) := by
  simp [heldSum]

theorem heldSum_setProc (g : String) (pid : Nat) (npr : Proc) :
    ∀ (procs : List Proc) (pr : Proc), findProc pid procs = some pr →
      heldSum g (setProc pid npr procs) + resCount g (procHeld pr) =
        heldSum g procs + resCount g (procHeld npr) := by
  intro procs
  induction procs with
  | nil => intro pr h; simp [findProc] at h
  | cons q rest ih =>
    intro pr h
    by_cases hq : q.pid = pid
    · simp only [findProc, if_pos hq, Option.some.injEq] at h
      subst h
      simp only [setProc, if_pos hq]
      rw [heldSum_cons, heldSum_cons]
      omega
    · simp only [findProc, if_neg hq] at h
      simp only [setProc, if_neg hq]
      rw [heldSum_cons, heldSum_cons]
      have := ih pr h
      omega

theorem resCount_block (g nm : String) (n : Nat) :
    resCount g ((List.range n).map (fun j => (⟨nm, j⟩ : Resource))) =
      if nm == g then n else 0 := by
  unfold resCount
  rw [List.countP_map]
  by_cases h : nm = g
  · subst h
    have hfun : ((fun it : Resource => it.resource_group == nm) ∘
        (fun j : Nat => (⟨nm, j⟩ : Resource))) = fun _ => true := by
      funext j
      simp
    rw [hfun]
    simp
  · have hfun : ((fun it : Resource => it.resource_group == g) ∘
        (fun j : Nat => (⟨nm, j⟩ : Resource))) = fun _ => false := by
      funext j
      simp [h]
    rw [hfun]
    simp [h]

theorem resCount_mkItemsFrom_not_mem (g : String) (caps : List Nat) :
    ∀ (names : List String) (r : Nat), g ∉ names →
      resCount g (mkItemsFrom caps r names) = 0 := by
  intro names
  induction names with
  | nil => intro r _; rfl
  | cons nm rest ih =>
    intro r hmem
    have hne : nm ≠ g := fun h => hmem (by rw [h]; exact List.mem_cons_self g rest)
    have hnm : g ∉ rest := fun h => hmem (List.mem_cons_of_mem nm h)
    simp only [mkItemsFrom]
    rw [resCount_append, resCount_block, ih (r + 1) hnm]
    simp [hne]

theorem resCount_mkItemsFrom (caps : List Nat) :
    ∀ (names : List String), names.Nodup → ∀ (r k : Nat) (hk : k < names.length),
      resCount (names.get ⟨k, hk⟩) (mkItemsFrom caps r names) = caps.getD (r + k) 0 := by
  intro names
  induction names with
  | nil => intro _ r k hk; simp at hk
  | cons nm rest ih =>
    intro hnodup r k hk
    have hnm : nm ∉ rest := (List.nodup_cons.mp hnodup).1
    have hrest : rest.Nodup := (List.nodup_cons.mp hnodup).2
    cases k with
    | zero =>
      simp only [List.get, mkItemsFrom]
      rw [resCount_append, resCount_block,
        resCount_mkItemsFrom_not_mem nm caps rest (r + 1) hnm]
      simp
    | succ k' =>
      have hk' : k' < rest.length := by simpa using hk
      have hg : (nm :: rest).get ⟨k' + 1, hk⟩ = rest.get ⟨k', hk'⟩ := rfl
      rw [hg]
      simp only [mkItemsFrom]
      have hgm : rest.get ⟨k', hk'⟩ ∈ rest := List.get_mem rest k' hk'
      have hne : nm ≠ rest.get ⟨k', hk'⟩ := fun h => hnm (h ▸ hgm)
      rw [resCount_append, resCount_block, ih hrest (r + 1) k' hk']
      have harith : r + 1 + k' = r + (k' + 1) := by omega
      rw [harith]
      simp [hne]
      intro h
      exact absurd h (by simpa using hne)

theorem resCount_nil (g : String) : resCount g [] = 0 := rfl

theorem resCount_cons (g : String) (x : Resource) (l : List Resource) :
    resCount g (x :: l) = resCount g l + (if x.resource_group == g then 1 else 0) := by
  simp [resCount, List.countP_cons]

theorem poolCount_scheduleEvent (g : String) (t : Int) (tgt : EvTarget) (s : SimState) :
    poolCount g (scheduleEvent t tgt s) = poolCount g s := rfl

theorem tryAcquire_pool (g : String) (plan : ProductionPlan) (s : SimState) (pid : Nat) :
    poolCount g (tryAcquire plan s pid) = poolCount g s := by
  cases hf : findProc pid s.procs with
  | none => rw [tryAcquire_eq_none plan s pid hf]
  | some pr =>
    cases hph : pr.phase with
    | acquiring rt rem held =>
      cases rem with
      | nil =>
        rw [tryAcquire_eq_start plan s pid pr rt held hf hph, poolCount_scheduleEvent]
        have hsp := heldSum_setProc g pid { pr with phase := .running rt s.now s.now held }
          s.procs pr hf
        have h1 : procHeld { pr with phase := ProcPhase.running rt s.now s.now held } = held := by
          simp [procHeld]
        have h2 : procHeld pr = held := by simp [procHeld, hph]
        rw [h1, h2] at hsp
        simp only [poolCount]
        omega
      | cons gg ggs =>
        cases hrem : removeFirstBy (fun it => it.resource_group == gg) s.items with
        | none => rw [tryAcquire_eq_park plan s pid pr rt gg ggs held hf hph hrem]; rfl
        | some x =>
          obtain ⟨item, remItems⟩ := x
          rw [tryAcquire_eq_get plan s pid pr rt gg ggs held item remItems hf hph hrem,
            poolCount_scheduleEvent]
          have hsp := heldSum_setProc g pid
            { pr with phase := .acquiring rt ggs (held ++ [item]) } s.procs pr hf
          have h1 : procHeld { pr with phase := ProcPhase.acquiring rt ggs (held ++ [item]) } =
              held ++ [item] := by simp [procHeld]
          have h2 : procHeld pr = held := by simp [procHeld, hph]
          rw [h1, h2, resCount_append, resCount_one] at hsp
          have hrm := removeFirstBy_countP (fun it => it.resource_group == gg)
            (fun it => it.resource_group == g) s.items item remItems hrem
          simp only [poolCount, resCount] at hsp hrm ⊢
          omega
    | started => rw [tryAcquire_eq_skip plan s pid pr hf (by rw [hph]; intro a b c hcon; exact absurd hcon (by simp))]
    | running rt rv st held => rw [tryAcquire_eq_skip plan s pid pr hf (by rw [hph]; intro a b c hcon; exact absurd hcon (by simp))]
    | releasing rt rv st en res toRel => rw [tryAcquire_eq_skip plan s pid pr hf (by rw [hph]; intro a b c hcon; exact absurd hcon (by simp))]
    | rejected => rw [tryAcquire_eq_skip plan s pid pr hf (by rw [hph]; intro a b c hcon; exact absurd hcon (by simp))]
    | finished => rw [tryAcquire_eq_skip plan s pid pr hf (by rw [hph]; intro a b c hcon; exact absurd hcon (by simp))]

theorem wakeLoop_pool (g : String) : ∀ (queue : List Nat) (s : SimState),
    poolCount g (wakeLoop queue s) = poolCount g s := by
  intro queue
  induction queue with
  | nil => intro s; rfl
  | cons pid restQ ih =>
    intro s
    cases hf : findProc pid s.procs with
    | none =>
      have hstep : wakeLoop (pid :: restQ) s =
          wakeLoop restQ { s with getQueue := s.getQueue ++ [pid] } := by
        simp [wakeLoop, hf]
      rw [hstep, ih]; rfl
    | some pr =>
      cases hph : pr.phase with
      | acquiring rt rem held =>
        cases rem with
        | nil =>
          have hstep : wakeLoop (pid :: restQ) s =
              wakeLoop restQ { s with getQueue := s.getQueue ++ [pid] } := by
            simp [wakeLoop, hf, hph]
          rw [hstep, ih]; rfl
        | cons gg ggs =>
          cases hrem : removeFirstBy (fun it => it.resource_group == gg) s.items with
          | none =>
            have hstep : wakeLoop (pid :: restQ) s =
                wakeLoop restQ { s with getQueue := s.getQueue ++ [pid] } := by
              simp [wakeLoop, hf, hph, hrem]
            rw [hstep, ih]; rfl
          | some x =>
            obtain ⟨item, remItems⟩ := x
            have hstep : wakeLoop (pid :: restQ) s =
                wakeLoop restQ (scheduleEvent s.now (.process pid)
                  { s with items := remItems,
                           procs := setProc pid { pr with phase := .acquiring rt ggs (held ++ [item]) } s.procs }) := by
              simp [wakeLoop, hf, hph, hrem]
            rw [hstep, ih, poolCount_scheduleEvent]
            have hsp := heldSum_setProc g pid
              { pr with phase := .acquiring rt ggs (held ++ [item]) } s.procs pr hf
            have h1 : procHeld { pr with phase := ProcPhase.acquiring rt ggs (held ++ [item]) } =
                held ++ [item] := by simp [procHeld]
            have h2 : procHeld pr = held := by simp [procHeld, hph]
            rw [h1, h2, resCount_append, resCount_one] at hsp
            have hrm := removeFirstBy_countP (fun it => it.resource_group == gg)
              (fun it => it.resource_group == g) s.items item remItems hrem
            simp only [poolCount, resCount] at hsp hrm ⊢
            omega
      | started =>
        have hstep : wakeLoop (pid :: restQ) s =
            wakeLoop restQ { s with getQueue := s.getQueue ++ [pid] } := by
          simp [wakeLoop, hf, hph]
        rw [hstep, ih]; rfl
      | running rt rv st held =>
        have hstep : wakeLoop (pid :: restQ) s =
            wakeLoop restQ { s with getQueue := s.getQueue ++ [pid] } := by
          simp [wakeLoop, hf, hph]
        rw [hstep, ih]; rfl
      | releasing rt rv st en res toRel =>
        have hstep : wakeLoop (pid :: restQ) s =
            wakeLoop restQ { s with getQueue := s.getQueue ++ [pid] } := by
          simp [wakeLoop, hf, hph]
        rw [hstep, ih]; rfl
      | rejected =>
        have hstep : wakeLoop (pid :: restQ) s =
            wakeLoop restQ { s with getQueue := s.getQueue ++ [pid] } := by
          simp [wakeLoop, hf, hph]
        rw [hstep, ih]; rfl
      | finished =>
        have hstep : wakeLoop (pid :: restQ) s =
            wakeLoop restQ { s with getQueue := s.getQueue ++ [pid] } := by
          simp [wakeLoop, hf, hph]
        rw [hstep, ih]; rfl

theorem wakeGetters_pool (g : String) (s : SimState) :
    poolCount g (wakeGetters s) = poolCount g s := by
  unfold wakeGetters
  rw [wakeLoop_pool]
  rfl

theorem doRelease_pool (g : String) (s : SimState) (pid : Nat) :
    poolCount g (doRelease s pid) = poolCount g s := by
  cases hf : findProc pid s.procs with
  | none => rw [doRelease_eq_none s pid hf]
  | some pr =>
    cases hph : pr.phase with
    | releasing rt rv st en res toRel =>
      cases toRel with
      | nil =>
        rw [doRelease_eq_fin s pid pr rt rv st en res hf hph]
        have hsp := heldSum_setProc g pid { pr with phase := .finished } s.procs pr hf
        have h1 : procHeld { pr with phase := ProcPhase.finished } = [] := by simp [procHeld]
        have h2 : procHeld pr = [] := by simp [procHeld, hph]
        rw [h1, h2] at hsp
        simp only [poolCount]
        omega
      | cons r restR =>
        rw [doRelease_eq_put s pid pr rt rv st en res r restR hf hph,
          poolCount_scheduleEvent, wakeGetters_pool]
        have hsp := heldSum_setProc g pid
          { pr with phase := .releasing rt rv st en res restR } s.procs pr hf
        have h1 : procHeld { pr with phase := ProcPhase.releasing rt rv st en res restR } =
            restR := by simp [procHeld]
        have h2 : procHeld pr = r :: restR := by simp [procHeld, hph]
        rw [h1, h2, resCount_cons] at hsp
        simp only [poolCount, resCount_append, resCount_one]
        omega
    | started => rw [doRelease_eq_skip s pid pr hf (by rw [hph]; intro a b c d e f hcon; exact absurd hcon (by simp))]
    | acquiring rt rem held => rw [doRelease_eq_skip s pid pr hf (by rw [hph]; intro a b c d e f hcon; exact absurd hcon (by simp))]
    | running rt rv st held => rw [doRelease_eq_skip s pid pr hf (by rw [hph]; intro a b c d e f hcon; exact absurd hcon (by simp))]
    | rejected => rw [doRelease_eq_skip s pid pr hf (by rw [hph]; intro a b c d e f hcon; exact absurd hcon (by simp))]
    | finished => rw [doRelease_eq_skip s pid pr hf (by rw [hph]; intro a b c d e f hcon; exact absurd hcon (by simp))]

theorem runProc_pool (g : String) (plan : ProductionPlan) (s : SimState) (pid : Nat)
    (pr : Proc) (hf : findProc pid s.procs = some pr) :
    poolCount g (runProc plan s pid pr) = poolCount g s := by
  cases hph : pr.phase with
  | started =>
    cases hres : constraint_check plan s.items s.logger s.now pr.product_index
      pr.activity_id pr.needs with
    | mk fc lg' =>
      cases fc with
      | some c =>
        rw [runProc_eq_reject plan s pid pr c lg' hph hres]
        have hsp := heldSum_setProc g pid { pr with phase := .rejected } s.procs pr hf
        have h1 : procHeld { pr with phase := ProcPhase.rejected } = [] := by simp [procHeld]
        have h2 : procHeld pr = [] := by simp [procHeld, hph]
        rw [h1, h2] at hsp
        simp only [poolCount]
        omega
      | none =>
        rw [runProc_eq_go plan s pid pr lg' hph hres, tryAcquire_pool]
        have hsp := heldSum_setProc g pid
          { pr with phase := .acquiring s.now (neededNames plan.factory.resource_names pr.needs) [] }
          s.procs pr hf
        have h1 : procHeld { pr with phase := ProcPhase.acquiring s.now (neededNames plan.factory.resource_names pr.needs) [] } = [] := by
          simp [procHeld]
        have h2 : procHeld pr = [] := by simp [procHeld, hph]
        rw [h1, h2] at hsp
        simp only [poolCount]
        omega
  | acquiring rt rem held =>
    rw [runProc_eq_acquiring plan s pid pr rt rem held hph, tryAcquire_pool]
  | running rt rv st held =>
    rw [runProc_eq_running plan s pid pr rt rv st held hph, doRelease_pool]
    have hsp := heldSum_setProc g pid
      { pr with phase := .releasing rt rv st s.now held held } s.procs pr hf
    have h1 : procHeld { pr with phase := ProcPhase.releasing rt rv st s.now held held } =
        held := by simp [procHeld]
    have h2 : procHeld pr = held := by simp [procHeld, hph]
    rw [h1, h2] at hsp
    simp only [poolCount]
    omega
  | releasing rt rv st en res toRel =>
    rw [runProc_eq_releasing plan s pid pr rt rv st en res toRel hph, doRelease_pool]
  | rejected => rw [runProc_eq_rejected plan s pid pr hph]
  | finished => rw [runProc_eq_finished plan s pid pr hph]

theorem procStep_pool (g : String) (plan : ProductionPlan) (s : SimState) (pid : Nat) :
    poolCount g (procStep plan s pid) = poolCount g s := by
  cases hf : findProc pid s.procs with
  | none => rw [procStep_eq_none plan s pid hf]
  | some pr => rw [procStep_eq_some plan s pid pr hf, runProc_pool g plan s pid pr hf]

theorem genStep_pool (g : String) (s : SimState) :
    poolCount g (genStep s) = poolCount g s := by
  cases hd : s.decisions with
  | nil => rw [genStep_eq_nil s hd]
  | cons d rest =>
    rw [genStep_eq_cons s d rest hd]
    have hspawn : poolCount g
        (scheduleEvent s.now (.process s.nextPid)
          { s with decisions := rest,
                   procs := s.procs ++ [⟨s.nextPid, d.activity_id, d.product_index, d.proc_time, d.needs, .started⟩],
                   nextPid := s.nextPid + 1 }) = poolCount g s := by
      rw [poolCount_scheduleEvent]
      simp only [poolCount, heldSum_append_one]
      have h1 : procHeld ⟨s.nextPid, d.activity_id, d.product_index, d.proc_time, d.needs, .started⟩ = [] := by
        simp [procHeld]
      rw [h1, resCount_nil]
      omega
    have hplain : poolCount g { s with decisions := rest } = poolCount g s := rfl
    by_cases hfin : d.finish <;> by_cases hsa : d.send_activity <;>
      simp [hfin, hsa, poolCount_scheduleEvent, hspawn, hplain]

theorem step_pool (g : String) (plan : ProductionPlan) (sim_time : Int)
    (s s' : SimState) (h : step plan sim_time s = some s') :
    poolCount g s' = poolCount g s := by
  cases hq : s.queue with
  | nil => rw [step_eq_nil plan sim_time s hq] at h; cases h
  | cons e rest =>
    by_cases ht : sim_time ≤ e.time
    · rw [step_eq_stop plan sim_time s e rest hq ht] at h; cases h
    · cases htg : e.target with
      | generator =>
        rw [step_eq_gen plan sim_time s e rest hq ht htg] at h
        injection h with h2
        subst h2
        rw [genStep_pool]
        rfl
      | process pid =>
        rw [step_eq_proc plan sim_time s e rest pid hq ht htg] at h
        injection h with h2
        subst h2
        rw [procStep_pool]
        rfl

theorem runLoop_pool (g : String) (plan : ProductionPlan) (sim_time : Int) :
    ∀ (fuel : Nat) (s : SimState),
      poolCount g (runLoop plan sim_time fuel s) = poolCount g s := by
  intro fuel
  induction fuel with
  | zero => intro s; rfl
  | succ n ih =>
    intro s
    simp only [runLoop]
    cases hs : step plan sim_time s with
    | none => rfl
    | some s' => rw [ih s', step_pool g plan sim_time s s' hs]

/-- C7: for every resource group, exactly `capacity[group]` instances exist in
the pool before the first event is processed, and after any number of event
steps the available instances plus the instances held by processes still equal
that fixed capacity — instances are never created or destroyed mid-run. -/
theorem C7_capacity_invariant (plan : ProductionPlan) (decs : List Decision)
    (sim_time : Int) (fuel : Nat) (r : Nat)
    (hnodup : plan.factory.resource_names.Nodup)
    (hr : r < plan.factory.resource_names.length) :
    resCount (plan.factory.resource_names.get ⟨r, hr⟩) (initState plan decs).items =
      plan.factory.capacity.getD r 0 ∧
    poolCount (plan.factory.resource_names.get ⟨r, hr⟩)
      (runLoop plan sim_time fuel (initState plan decs)) =
      plan.factory.capacity.getD r 0 := by
  have hinit : resCount (plan.factory.resource_names.get ⟨r, hr⟩)
      (initState plan decs).items = plan.factory.capacity.getD r 0 := by
    show resCount (plan.factory.resource_names.get ⟨r, hr⟩)
      (initItems plan.factory.resource_names plan.factory.capacity) = _
    unfold initItems
    have := resCount_mkItemsFrom plan.factory.capacity plan.factory.resource_names
      hnodup 0 r hr
    simpa using this
  refine ⟨hinit, ?_⟩
  rw [runLoop_pool]
  show resCount _ (initState plan decs).items + heldSum _ [] = _
  rw [heldSum_nil, hinit]
  omega

/-- C7 witness: the capacity invariant on the concrete run of `planA` (group A,
capacity 1). -/
theorem C7_capacity_invariant_witness :
    resCount (planA.factory.resource_names.get ⟨0, by decide⟩)
      (initState planA decsA).items = planA.factory.capacity.getD 0 0 ∧
    poolCount (planA.factory.resource_names.get ⟨0, by decide⟩)
      (runLoop planA 1000 3 (initState planA decsA)) =
      planA.factory.capacity.getD 0 0 :=
  C7_capacity_invariant planA decsA 1000 3 0 (by decide) (by decide)

theorem lookupAssoc_updateAssoc (key k : Nat × Nat) (v : UsageRecord) :
    ∀ l, lookupAssoc (updateAssoc l k v) key =
      if k = key then some v else lookupAssoc l key := by
  intro l
  induction l with
  | nil => by_cases h : k = key <;> simp [updateAssoc, lookupAssoc, h]
  | cons kv rest ih =>
    obtain ⟨k0, w⟩ := kv
    by_cases h0 : k0 = k
    · subst h0
      by_cases h : k0 = key
      · subst h; simp [updateAssoc, lookupAssoc]
      · simp [updateAssoc, lookupAssoc, h]
    · by_cases h : k0 = key
      · subst h
        have hk : ¬ (k = k0) := fun hh => h0 hh.symm
        simp [updateAssoc, lookupAssoc, h0, hk]
      · simp [updateAssoc, lookupAssoc, h0, h, ih]

theorem keyFinished_append (key : Nat × Nat) (procs l : List Proc)
    (h : keyFinished key procs = true) : keyFinished key (procs ++ l) = true := by
  simp only [keyFinished, List.any_append, Bool.or_eq_true]
  exact Or.inl h

theorem keyFinished_setProc_mono (key : Nat × Nat) (pid : Nat) (npr : Proc) :
    ∀ (procs : List Proc) (pr : Proc), findProc pid procs = some pr →
      pr.phase ≠ ProcPhase.finished →
      keyFinished key procs = true → keyFinished key (setProc pid npr procs) = true := by
  intro procs
  induction procs with
  | nil => intro pr h; simp [findProc] at h
  | cons q rest ih =>
    intro pr hfind hnf hkf
    by_cases hq : q.pid = pid
    · simp only [findProc, if_pos hq, Option.some.injEq] at hfind
      subst hfind
      simp only [setProc, if_pos hq]
      simp only [keyFinished, List.any_cons, Bool.or_eq_true] at hkf ⊢
      cases hkf with
      | inl hhead =>
        simp only [Bool.and_eq_true, decide_eq_true_eq] at hhead
        exact absurd hhead.2 hnf
      | inr hrest => exact Or.inr hrest
    · simp only [findProc, if_neg hq] at hfind
      simp only [setProc, if_neg hq]
      simp only [keyFinished, List.any_cons, Bool.or_eq_true] at hkf ⊢
      cases hkf with
      | inl hhead => exact Or.inl hhead
      | inr hrest => exact Or.inr (ih pr hfind hnf hrest)

theorem keyFinished_setProc_self (key : Nat × Nat) (pid : Nat) (npr : Proc)
    (h1 : npr.product_index = key.1) (h2 : npr.activity_id = key.2)
    (h3 : npr.phase = ProcPhase.finished) :
    ∀ (procs : List Proc) (pr : Proc), findProc pid procs = some pr →
      keyFinished key (setProc pid npr procs) = true := by
  intro procs
  induction procs with
  | nil => intro pr h; simp [findProc] at h
  | cons q rest ih =>
    intro pr hfind
    by_cases hq : q.pid = pid
    · simp only [setProc, if_pos hq]
      simp only [keyFinished, List.any_cons, Bool.or_eq_true]
      exact Or.inl (by simp [h1, h2, h3])
    · simp only [findProc, if_neg hq] at hfind
      simp only [setProc, if_neg hq]
      simp only [keyFinished, List.any_cons, Bool.or_eq_true]
      exact Or.inr (by have := ih pr hfind; simpa [keyFinished] using this)

theorem usageInv_frame (s s' : SimState)
    (h1 : s'.resource_usage = s.resource_usage)
    (h2 : ∀ key, keyFinished key s.procs = true → keyFinished key s'.procs = true) :
    UsageInv s → UsageInv s' := by
  intro hinv key rec hlook hfin
  rw [h1] at hlook
  apply hinv key rec hlook
  cases hk : keyFinished key s.procs with
  | false => rfl
  | true => rw [h2 key hk] at hfin; cases hfin

theorem tryAcquire_mono (plan : ProductionPlan) (s : SimState) (pid : Nat)
    (key : Nat × Nat) (h : keyFinished key s.procs = true) :
    keyFinished key (tryAcquire plan s pid).procs = true := by
  cases hf : findProc pid s.procs with
  | none => rw [tryAcquire_eq_none plan s pid hf]; exact h
  | some pr =>
    cases hph : pr.phase with
    | acquiring rt rem held =>
      have hnf : pr.phase ≠ ProcPhase.finished := by rw [hph]; simp
      cases rem with
      | nil =>
        rw [tryAcquire_eq_start plan s pid pr rt held hf hph, scheduleEvent_procs]
        exact keyFinished_setProc_mono key pid _ s.procs pr hf hnf h
      | cons gg ggs =>
        cases hrem : removeFirstBy (fun it => it.resource_group == gg) s.items with
        | none => rw [tryAcquire_eq_park plan s pid pr rt gg ggs held hf hph hrem]; exact h
        | some x =>
          obtain ⟨item, remItems⟩ := x
          rw [tryAcquire_eq_get plan s pid pr rt gg ggs held item remItems hf hph hrem,
            scheduleEvent_procs]
          exact keyFinished_setProc_mono key pid _ s.procs pr hf hnf h
    | started => rw [tryAcquire_eq_skip plan s pid pr hf (by rw [hph]; intro a b c hcon; exact absurd hcon (by simp))]; exact h
    | running rt rv st held => rw [tryAcquire_eq_skip plan s pid pr hf (by rw [hph]; intro a b c hcon; exact absurd hcon (by simp))]; exact h
    | releasing rt rv st en res toRel => rw [tryAcquire_eq_skip plan s pid pr hf (by rw [hph]; intro a b c hcon; exact absurd hcon (by simp))]; exact h
    | rejected => rw [tryAcquire_eq_skip plan s pid pr hf (by rw [hph]; intro a b c hcon; exact absurd hcon (by simp))]; exact h
    | finished => rw [tryAcquire_eq_skip plan s pid pr hf (by rw [hph]; intro a b c hcon; exact absurd hcon (by simp))]; exact h

theorem wakeLoop_usage : ∀ (queue : List Nat) (s : SimState),
    (wakeLoop queue s).resource_usage = s.resource_usage := by
  intro queue
  induction queue with
  | nil => intro s; rfl
  | cons pid restQ ih =>
    intro s
    cases hf : findProc pid s.procs with
    | none =>
      have hstep : wakeLoop (pid :: restQ) s =
          wakeLoop restQ { s with getQueue := s.getQueue ++ [pid] } := by
        simp [wakeLoop, hf]
      rw [hstep, ih]
    | some pr =>
      cases hph : pr.phase with
      | acquiring rt rem held =>
        cases rem with
        | nil =>
          have hstep : wakeLoop (pid :: restQ) s =
              wakeLoop restQ { s with getQueue := s.getQueue ++ [pid] } := by
            simp [wakeLoop, hf, hph]
          rw [hstep, ih]
        | cons gg ggs =>
          cases hrem : removeFirstBy (fun it => it.resource_group == gg) s.items with
          | none =>
            have hstep : wakeLoop (pid :: restQ) s =
                wakeLoop restQ { s with getQueue := s.getQueue ++ [pid] } := by
              simp [wakeLoop, hf, hph, hrem]
            rw [hstep, ih]
          | some x =>
            obtain ⟨item, remItems⟩ := x
            have hstep : wakeLoop (pid :: restQ) s =
                wakeLoop restQ (scheduleEvent s.now (.process pid)
                  { s with items := remItems,
                           procs := setProc pid { pr with phase := .acquiring rt ggs (held ++ [item]) } s.procs }) := by
              simp [wakeLoop, hf, hph, hrem]
            rw [hstep, ih, scheduleEvent_usage]
      | started =>
        have hstep : wakeLoop (pid :: restQ) s =
            wakeLoop restQ { s with getQueue := s.getQueue ++ [pid] } := by
          simp [wakeLoop, hf, hph]
        rw [hstep, ih]
      | running rt rv st held =>
        have hstep : wakeLoop (pid :: restQ) s =
            wakeLoop restQ { s with getQueue := s.getQueue ++ [pid] } := by
          simp [wakeLoop, hf, hph]
        rw [hstep, ih]
      | releasing rt rv st en res toRel =>
        have hstep : wakeLoop (pid :: restQ) s =
            wakeLoop restQ { s with getQueue := s.getQueue ++ [pid] } := by
          simp [wakeLoop, hf, hph]
        rw [hstep, ih]
      | rejected =>
        have hstep : wakeLoop (pid :: restQ) s =
            wakeLoop restQ { s with getQueue := s.getQueue ++ [pid] } := by
          simp [wakeLoop, hf, hph]
        rw [hstep, ih]
      | finished =>
        have hstep : wakeLoop (pid :: restQ) s =
            wakeLoop restQ { s with getQueue := s.getQueue ++ [pid] } := by
          simp [wakeLoop, hf, hph]
        rw [hstep, ih]

theorem wakeGetters_usage (s : SimState) :
    (wakeGetters s).resource_usage = s.resource_usage := by
  unfold wakeGetters
  rw [wakeLoop_usage]

theorem wakeLoop_mono (key : Nat × Nat) : ∀ (queue : List Nat) (s : SimState),
    keyFinished key s.procs = true → keyFinished key (wakeLoop queue s).procs = true := by
  intro queue
  induction queue with
  | nil => intro s h; exact h
  | cons pid restQ ih =>
    intro s h
    cases hf : findProc pid s.procs with
    | none =>
      have hstep : wakeLoop (pid :: restQ) s =
          wakeLoop restQ { s with getQueue := s.getQueue ++ [pid] } := by
        simp [wakeLoop, hf]
      rw [hstep]
      exact ih _ h
    | some pr =>
      cases hph : pr.phase with
      | acquiring rt rem held =>
        have hnf : pr.phase ≠ ProcPhase.finished := by rw [hph]; simp
        cases rem with
        | nil =>
          have hstep : wakeLoop (pid :: restQ) s =
              wakeLoop restQ { s with getQueue := s.getQueue ++ [pid] } := by
            simp [wakeLoop, hf, hph]
          rw [hstep]
          exact ih _ h
        | cons gg ggs =>
          cases hrem : removeFirstBy (fun it => it.resource_group == gg) s.items with
          | none =>
            have hstep : wakeLoop (pid :: restQ) s =
                wakeLoop restQ { s with getQueue := s.getQueue ++ [pid] } := by
              simp [wakeLoop, hf, hph, hrem]
            rw [hstep]
            exact ih _ h
          | some x =>
            obtain ⟨item, remItems⟩ := x
            have hstep : wakeLoop (pid :: restQ) s =
                wakeLoop restQ (scheduleEvent s.now (.process pid)
                  { s with items := remItems,
                           procs := setProc pid { pr with phase := .acquiring rt ggs (held ++ [item]) } s.procs }) := by
              simp [wakeLoop, hf, hph, hrem]
            rw [hstep]
            apply ih
            rw [scheduleEvent_procs]
            exact keyFinished_setProc_mono key pid _ s.procs pr hf hnf h
      | started =>
        have hstep : wakeLoop (pid :: restQ) s =
            wakeLoop restQ { s with getQueue := s.getQueue ++ [pid] } := by
          simp [wakeLoop, hf, hph]
        rw [hstep]
        exact ih _ h
      | running rt rv st held =>
        have hstep : wakeLoop (pid :: restQ) s =
            wakeLoop restQ { s with getQueue := s.getQueue ++ [pid] } := by
          simp [wakeLoop, hf, hph]
        rw [hstep]
        exact ih _ h
      | releasing rt rv st en res toRel =>
        have hstep : wakeLoop (pid :: restQ) s =
            wakeLoop restQ { s with getQueue := s.getQueue ++ [pid] } := by
          simp [wakeLoop, hf, hph]
        rw [hstep]
        exact ih _ h
      | rejected =>
        have hstep : wakeLoop (pid :: restQ) s =
            wakeLoop restQ { s with getQueue := s.getQueue ++ [pid] } := by
          simp [wakeLoop, hf, hph]
        rw [hstep]
        exact ih _ h
      | finished =>
        have hstep : wakeLoop (pid :: restQ) s =
            wakeLoop restQ { s with getQueue := s.getQueue ++ [pid] } := by
          simp [wakeLoop, hf, hph]
        rw [hstep]
        exact ih _ h

theorem wakeGetters_mono (key : Nat × Nat) (s : SimState)
    (h : keyFinished key s.procs = true) :
    keyFinished key (wakeGetters s).procs = true := by
  unfold wakeGetters
  exact wakeLoop_mono key s.getQueue _ h

theorem tryAcquire_usageInv (plan : ProductionPlan) (s : SimState) (pid : Nat) :
    UsageInv s → UsageInv (tryAcquire plan s pid) :=
  usageInv_frame s (tryAcquire plan s pid) (tryAcquire_frame plan s pid).2.2
    (fun key => tryAcquire_mono plan s pid key)

theorem doRelease_usageInv (s : SimState) (pid : Nat) :
    UsageInv s → UsageInv (doRelease s pid) := by
  intro hinv
  cases hf : findProc pid s.procs with
  | none => rw [doRelease_eq_none s pid hf]; exact hinv
  | some pr =>
    cases hph : pr.phase with
    | releasing rt rv st en res toRel =>
      have hnf : pr.phase ≠ ProcPhase.finished := by rw [hph]; simp
      cases toRel with
      | nil =>
        rw [doRelease_eq_fin s pid pr rt rv st en res hf hph]
        intro key rec hlook hfin
        by_cases hkey : (pr.product_index, pr.activity_id) = key
        · exfalso
          have hself := keyFinished_setProc_self key pid { pr with phase := .finished }
            (by rw [← hkey]) (by rw [← hkey]) rfl s.procs pr hf
          rw [hself] at hfin
          cases hfin
        · rw [show ({ s with
              resource_usage := (updateAssoc s.resource_usage (pr.product_index, pr.activity_id) ⟨pr.product_index, pr.activity_id, .vec pr.needs, .used res, .fin rt, .fin rv, .fin st, .fin en⟩),
              procs := setProc pid { pr with phase := .finished } s.procs } : SimState).resource_usage =
            updateAssoc s.resource_usage (pr.product_index, pr.activity_id) ⟨pr.product_index, pr.activity_id, .vec pr.needs, .used res, .fin rt, .fin rv, .fin st, .fin en⟩ from rfl,
            lookupAssoc_updateAssoc key (pr.product_index, pr.activity_id) _ s.resource_usage,
            if_neg hkey] at hlook
          apply hinv key rec hlook
          cases hk : keyFinished key s.procs with
          | false => rfl
          | true =>
            have := keyFinished_setProc_mono key pid { pr with phase := .finished }
              s.procs pr hf hnf hk
            rw [this] at hfin
            cases hfin
      | cons r restR =>
        rw [doRelease_eq_put s pid pr rt rv st en res r restR hf hph]
        refine usageInv_frame s _ ?_ ?_ hinv
        · rw [scheduleEvent_usage, wakeGetters_usage]
        · intro key hk
          rw [scheduleEvent_procs]
          apply wakeGetters_mono
          exact keyFinished_setProc_mono key pid _ s.procs pr hf hnf hk
    | started => rw [doRelease_eq_skip s pid pr hf (by rw [hph]; intro a b c d e f hcon; exact absurd hcon (by simp))]; exact hinv
    | acquiring rt rem held => rw [doRelease_eq_skip s pid pr hf (by rw [hph]; intro a b c d e f hcon; exact absurd hcon (by simp))]; exact hinv
    | running rt rv st held => rw [doRelease_eq_skip s pid pr hf (by rw [hph]; intro a b c d e f hcon; exact absurd hcon (by simp))]; exact hinv
    | rejected => rw [doRelease_eq_skip s pid pr hf (by rw [hph]; intro a b c d e f hcon; exact absurd hcon (by simp))]; exact hinv
    | finished => rw [doRelease_eq_skip s pid pr hf (by rw [hph]; intro a b c d e f hcon; exact absurd hcon (by simp))]; exact hinv

theorem runProc_usageInv (plan : ProductionPlan) (s : SimState) (pid : Nat)
    (pr : Proc) (hf : findProc pid s.procs = some pr) :
    UsageInv s → UsageInv (runProc plan s pid pr) := by
  intro hinv
  cases hph : pr.phase with
  | started =>
    have hnf : pr.phase ≠ ProcPhase.finished := by rw [hph]; simp
    cases hres : constraint_check plan s.items s.logger s.now pr.product_index
      pr.activity_id pr.needs with
    | mk fc lg' =>
      cases fc with
      | some c =>
        rw [runProc_eq_reject plan s pid pr c lg' hph hres]
        refine usageInv_frame s _ ?_ ?_ hinv
        · rfl
        · intro key hk
          exact keyFinished_setProc_mono key pid _ s.procs pr hf hnf hk
      | none =>
        rw [runProc_eq_go plan s pid pr lg' hph hres]
        apply tryAcquire_usageInv
        refine usageInv_frame s _ ?_ ?_ hinv
        · rfl
        · intro key hk
          exact keyFinished_setProc_mono key pid _ s.procs pr hf hnf hk
  | acquiring rt rem held =>
    rw [runProc_eq_acquiring plan s pid pr rt rem held hph]
    exact tryAcquire_usageInv plan s pid hinv
  | running rt rv st held =>
    have hnf : pr.phase ≠ ProcPhase.finished := by rw [hph]; simp
    rw [runProc_eq_running plan s pid pr rt rv st held hph]
    apply doRelease_usageInv
    refine usageInv_frame s _ ?_ ?_ hinv
    · rfl
    · intro key hk
      exact keyFinished_setProc_mono key pid _ s.procs pr hf hnf hk
  | releasing rt rv st en res toRel =>
    rw [runProc_eq_releasing plan s pid pr rt rv st en res toRel hph]
    exact doRelease_usageInv s pid hinv
  | rejected => rw [runProc_eq_rejected plan s pid pr hph]; exact hinv
  | finished => rw [runProc_eq_finished plan s pid pr hph]; exact hinv

theorem genStep_usageInv (s : SimState) : UsageInv s → UsageInv (genStep s) := by
  intro hinv
  cases hd : s.decisions with
  | nil => rw [genStep_eq_nil s hd]; exact hinv
  | cons d rest =>
    rw [genStep_eq_cons s d rest hd]
    have hbase : UsageInv
        (if d.send_activity then
          scheduleEvent s.now (.process s.nextPid)
            { s with decisions := rest,
                     procs := s.procs ++ [⟨s.nextPid, d.activity_id, d.product_index, d.proc_time, d.needs, .started⟩],
                     nextPid := s.nextPid + 1 }
        else { s with decisions := rest }) := by
      by_cases hsa : d.send_activity
      · rw [if_pos hsa]
        refine usageInv_frame s _ ?_ ?_ hinv
        · rfl
        · intro key hk
          rw [scheduleEvent_procs]
          exact keyFinished_append key s.procs _ hk
      · rw [if_neg hsa]
        refine usageInv_frame s _ ?_ ?_ hinv
        · rfl
        · exact fun key hk => hk
    by_cases hfin : d.finish
    · rw [if_pos hfin]
      exact hbase
    · rw [if_neg hfin]
      refine usageInv_frame _ _ ?_ ?_ hbase
      · rfl
      · exact fun key hk => hk

theorem procStep_usageInv (plan : ProductionPlan) (s : SimState) (pid : Nat) :
    UsageInv s → UsageInv (procStep plan s pid) := by
  intro hinv
  cases hf : findProc pid s.procs with
  | none => rw [procStep_eq_none plan s pid hf]; exact hinv
  | some pr =>
    rw [procStep_eq_some plan s pid pr hf]
    exact runProc_usageInv plan s pid pr hf hinv

theorem step_usageInv (plan : ProductionPlan) (sim_time : Int) (s s' : SimState)
    (h : step plan sim_time s = some s') : UsageInv s → UsageInv s' := by
  intro hinv
  cases hq : s.queue with
  | nil => rw [step_eq_nil plan sim_time s hq] at h; cases h
  | cons e rest =>
    by_cases ht : sim_time ≤ e.time
    · rw [step_eq_stop plan sim_time s e rest hq ht] at h; cases h
    · cases htg : e.target with
      | generator =>
        rw [step_eq_gen plan sim_time s e rest hq ht htg] at h
        injection h with h2
        subst h2
        apply genStep_usageInv
        refine usageInv_frame s _ ?_ ?_ hinv
        · rfl
        · exact fun key hk => hk
      | process pid =>
        rw [step_eq_proc plan sim_time s e rest pid hq ht htg] at h
        injection h with h2
        subst h2
        apply procStep_usageInv
        refine usageInv_frame s _ ?_ ?_ hinv
        · rfl
        · exact fun key hk => hk

theorem runLoop_usageInv (plan : ProductionPlan) (sim_time : Int) :
    ∀ (fuel : Nat) (s : SimState), UsageInv s →
      UsageInv (runLoop plan sim_time fuel s) := by
  intro fuel
  induction fuel with
  | zero => intro s h; exact h
  | succ n ih =>
    intro s h
    simp only [runLoop]
    cases hs : step plan sim_time s with
    | none => exact h
    | some s' => exact ih s' (step_usageInv plan sim_time s s' hs h)

theorem initUsage_sentinel :
    ∀ (es : List EarliestStartEntry) (acc : List ((Nat × Nat) × UsageRecord)),
      (∀ k r, lookupAssoc acc k = some r → r = sentinelRecord k.1 k.2) →
      ∀ k r, lookupAssoc (es.foldl (fun acc act =>
          updateAssoc acc (act.product_index, act.activity_id)
            (sentinelRecord act.product_index act.activity_id)) acc) k = some r →
        r = sentinelRecord k.1 k.2 := by
  intro es
  induction es with
  | nil => intro acc hacc k r h; exact hacc k r h
  | cons e rest ih =>
    intro acc hacc k r h
    refine ih _ ?_ k r h
    intro k' r' h'
    rw [lookupAssoc_updateAssoc] at h'
    by_cases hk : (e.product_index, e.activity_id) = k'
    · rw [if_pos hk, Option.some.injEq] at h'
      subst h'
      rw [← hk]
    · rw [if_neg hk] at h'
      exact hacc k' r' h'

theorem usageInv_init (plan : ProductionPlan) (decs : List Decision) :
    UsageInv (initState plan decs) := by
  intro key rec hlook _
  exact initUsage_sentinel plan.earliest_start [] (by intro k r h; simp [lookupAssoc] at h)
    key rec hlook

/-- C10: at the end of any run, every planned activity with no completed process
(rejected, never dispatched, or still in flight at the horizon) still has the
untouched sentinel as its resource-usage row: Needs is the infinity sentinel
(not its declared needs vector), resources is the string marker
"NOT PROCESSED DUE TO CLASH", and all four timestamps are infinite. -/
theorem C10_sentinel_rows (plan : ProductionPlan) (decs : List Decision)
    (sim_time : Int) (fuel : Nat) (key : Nat × Nat) (rec : UsageRecord)
    (hlook : lookupAssoc (runLoop plan sim_time fuel (initState plan decs)).resource_usage
      key = some rec)
    (hnotfin : keyFinished key (runLoop plan sim_time fuel (initState plan decs)).procs =
      false) :
    rec.needs = NeedsVal.inf ∧
    rec.resources = ResourcesVal.marker "NOT PROCESSED DUE TO CLASH" ∧
    rec.request = PyTime.inf ∧ rec.retrieve = PyTime.inf ∧
    rec.start = PyTime.inf ∧ rec.finish = PyTime.inf ∧
    rec = sentinelRecord key.1 key.2 := by
  have hrec := runLoop_usageInv plan sim_time fuel (initState plan decs)
    (usageInv_init plan decs) key rec hlook hnotfin
  subst hrec
  exact ⟨rfl, rfl, rfl, rfl, rfl, rfl, rfl⟩

/-- C10 witness: with no operator decisions, activity (0,0) of `planA` is never
dispatched and its row at the end of the run is the sentinel. -/
theorem C10_sentinel_rows_witness :
    sentinelRecord 0 0 = sentinelRecord 0 0 ∧
    (sentinelRecord 0 0).needs = NeedsVal.inf := by
  have h := C10_sentinel_rows planA [] 1000 2 (0, 0) (sentinelRecord 0 0)
    (by decide) (by decide)
  exact ⟨h.2.2.2.2.2.2, h.1⟩

end Sim7
